import Mathlib

/-!
Verification development for the smart-comfyui-gallery ingestion pipeline
(`src-tauri/src/parser.rs`, `scanner.rs`, `database.rs` of the
`tauri-sveltekit-main` crate).

Conventions of the shallow embedding:
* `serde_json::Value` is modelled by the inductive `Json` below.  JSON numbers
  distinguish the integer representation (`jint`, serde's `N::PosInt/NegInt`,
  for which `as_i64` succeeds) from the floating representation (`jnum`,
  serde's `N::Float`, for which `as_i64` fails); `as_f64` succeeds on both.
  Float values are carried as exact rationals — the parser never performs
  arithmetic on them, it only moves them around.
* Rust `HashMap`s are modelled as association lists with insert-replaces-key
  semantics (`hmInsert`) and first-match lookup (`hmGet`).  Iteration order of
  a `HashMap` is arbitrary in Rust; the only place the source iterates over
  one (`find_sampler_nodes`) sorts the result by numeric node id, so for
  graphs whose ids have distinct numeric parses the output is
  order-independent and the insertion-order list is a faithful model.
* Rust `Option`/`Result` map to `Option`/`Except String`.
-/

/-- Model of `serde_json::Value`. -/
inductive Json where
  | jnull
  | jbool (b : Bool)
  | jint (i : Int)
  | jnum (q : ℚ)
  | jstr (s : String)
  | jarr (elems : List Json)
  | jobj (fields : List (String × Json))

namespace Json

/-- `Value::as_object` (returning the field list of the map). -/
def asObj : Json → Option (List (String × Json))
  | jobj kvs => some kvs
  | _ => none

/-- `Value::as_array`. -/
def asArr : Json → Option (List Json)
  | jarr xs => some xs
  | _ => none

/-- `Value::as_str`. -/
def asStr : Json → Option String
  | jstr s => some s
  | _ => none

/-- `Value::as_i64`: succeeds only on integer-represented numbers. -/
def asI64 : Json → Option Int
  | jint i => some i
  | _ => none

/-- `Value::as_f64`: succeeds on any number (integers are widened). -/
def asF64 : Json → Option ℚ
  | jint i => some (i : ℚ)
  | jnum q => some q
  | _ => none

end Json

/-- `serde_json::Map::get`: lookup of a key in an object's field list. -/
def objGet (kvs : List (String × Json)) (k : String) : Option Json :=
  (kvs.find? (fun kv => kv.1 = k)).map (fun kv => kv.2)

/-- `Value::get` on objects (`node.as_object().and_then(|o| o.get(k))`). -/
def Json.get (j : Json) (k : String) : Option Json :=
  j.asObj.bind (fun kvs => objGet kvs k)

/-- `HashMap::insert`: replace the value of an existing key, else append. -/
def hmInsert : List (String × Json) → String → Json → List (String × Json)
  | [], k, v => [(k, v)]
  | (k0, v0) :: rest, k, v =>
      if k0 = k then (k, v) :: rest else (k0, v0) :: hmInsert rest k v

/-- `HashMap::get`: first (unique) binding of the key. -/
def hmGet (m : List (String × Json)) (k : String) : Option Json :=
  (m.find? (fun kv => kv.1 = k)).map (fun kv => kv.2)

/-- `HashMap<i64, _>::insert` for the link table. -/
def lmInsert : List (Int × String × Int) → Int → String × Int → List (Int × String × Int)
  | [], k, v => [(k, v)]
  | (k0, v0) :: rest, k, v =>
      if k0 = k then (k, v) :: rest else (k0, v0) :: lmInsert rest k v

/-- `HashMap<i64, _>::get` for the link table. -/
def lmGet (m : List (Int × String × Int)) (k : Int) : Option (String × Int) :=
  (m.find? (fun kv => kv.1 = k)).map (fun kv => kv.2)

/-- `SAMPLER_TYPES` (`parser.rs`). -/
def samplerTypes : List String :=
  ["KSampler", "KSamplerAdvanced", "SamplerCustom", "SamplerCustomAdvanced",
   "KSamplerEfficient", "DetailerForEach", "SamplerDPMPP_2M_SDE",
   "WanVideoSampler", "UltimateSDUpscale"]

/-- `MODEL_LOADER_TYPES` (`parser.rs`). -/
def modelLoaderTypes : List String :=
  ["CheckpointLoaderSimple", "CheckpointLoader", "Load Checkpoint",
   "UNETLoader", "Load Diffusion Model", "UnetLoaderGGUF", "DualCLIPLoader"]

/-- `PROMPT_NODE_TYPES` (`parser.rs`). -/
def promptNodeTypes : List String :=
  ["CLIPTextEncode", "CLIP Text Encode (Prompt)", "TextEncodeQwenImageEditPlus",
   "CLIPTextEncodeSDXL", "CLIPTextEncodeSDXLRefiner"]

/-- `ParsedWorkflow` (`parser.rs`).  Note that the prompt fields are plain
strings (empty when nothing was resolved), not options. -/
structure ParsedWorkflow where
  model_name : Option String
  sampler_name : Option String
  scheduler : Option String
  positive_prompt : String
  negative_prompt : String
  width : Option Int
  height : Option Int
  cfg : Option ℚ
  steps : Option Int
deriving DecidableEq, Repr

/-- Parser state `ComfyUIWorkflowParser`: detected format (`isUI` for
`WorkflowFormat::UI`), the node index and (UI only) the link table. -/
structure CParser where
  isUI : Bool
  nodesById : List (String × Json)
  linksMap : List (Int × String × Int)

/-- `i64::from_str` as used by `id.parse::<i64>()`: optional sign followed by
at least one decimal digit (the `i64` range check is immaterial for the node
ids considered here and is not modelled). -/
def digitsVal : List Char → Option Nat
  | [] => none
  | cs =>
    cs.foldl (fun acc c =>
      acc.bind (fun n => if c.isDigit then some (n * 10 + (c.toNat - 48)) else none))
      (some 0)

/-- `str::parse::<i64>()`. -/
def parseI64 (s : String) : Option Int :=
  match s.toList with
  | '-' :: rest => (digitsVal rest).map (fun n => -(n : Int))
  | '+' :: rest => (digitsVal rest).map (fun n => (n : Int))
  | l => (digitsVal l).map (fun n => (n : Int))

/-- `ComfyUIWorkflowParser::build_link_map`: each well-formed entry
`[link_id, source_node_id, source_output_slot, ...]` (all three `i64`) is
inserted as `link_id -> (source_node_id.to_string(), source_output_slot)`. -/
def buildLinkMap (linksValue : Option Json) : List (Int × String × Int) :=
  match linksValue.bind Json.asArr with
  | none => []
  | some links =>
    links.foldl (fun m link =>
      match link.asArr with
      | none => m
      | some la =>
        if la.length ≥ 3 then
          match (la.get? 0).bind Json.asI64, (la.get? 1).bind Json.asI64,
                (la.get? 2).bind Json.asI64 with
          | some linkId, some sourceId, some sourceSlot =>
              lmInsert m linkId (toString sourceId, sourceSlot)
          | _, _, _ => m
        else m) []

/-- UI branch of `ComfyUIWorkflowParser::new`: index the `nodes` array by the
stringified `id` field; a node without object shape or without an `id` key is
skipped; an `id` that is neither `i64` nor string aborts with
`"Invalid node ID"`. -/
def buildNodesUI : List Json → List (String × Json) → Except String (List (String × Json))
  | [], acc => .ok acc
  | node :: rest, acc =>
    match node.asObj with
    | none => buildNodesUI rest acc
    | some nodeObj =>
      match objGet nodeObj "id" with
      | none => buildNodesUI rest acc
      | some idv =>
        match (idv.asI64.map toString).orElse (fun _ => idv.asStr) with
        | none => .error "Invalid node ID"
        | some idStr => buildNodesUI rest (hmInsert acc idStr node)

/-- API branch of `ComfyUIWorkflowParser::new`: every key of the top-level
object is a node id; the node body (if an object) is indexed under that key
with the key itself inserted as an `"id"` field. -/
def buildNodesAPI : List (String × Json) → List (String × Json) → List (String × Json)
  | [], acc => acc
  | (key, v) :: rest, acc =>
    match v.asObj with
    | none => buildNodesAPI rest acc
    | some vObj =>
        buildNodesAPI rest (hmInsert acc key (Json.jobj (hmInsert vObj "id" (Json.jstr key))))

/-- `ComfyUIWorkflowParser::new`: format detection (`nodes` key present ⇒ UI
format, else API format) and node-index construction. -/
def parserNew (workflowData : Json) : Except String CParser :=
  match workflowData.asObj with
  | none => .error "Invalid workflow data: not an object"
  | some obj =>
    if (obj.find? (fun kv => kv.1 = "nodes")).isSome then
      match (objGet obj "nodes").bind Json.asArr with
      | none => .error "Invalid UI format: nodes is not an array"
      | some nodes =>
        (buildNodesUI nodes []).map (fun nodesById =>
          { isUI := true, nodesById := nodesById, linksMap := buildLinkMap (objGet obj "links") })
    else
      .ok { isUI := false, nodesById := buildNodesAPI obj [], linksMap := [] }

/-- `ComfyUIWorkflowParser::get_node_type`: `type` field (UI) or `class_type`
field (API), as a string. -/
def getNodeType (p : CParser) (node : Json) : Option String :=
  if p.isUI then (node.get "type").bind Json.asStr
  else (node.get "class_type").bind Json.asStr

/-- Loop body of the UI branch of `get_input_source_node`: scan the `inputs`
array for an entry named `inputName`; a malformed entry (missing or
non-string `name`, missing `link` key) aborts the whole lookup (Rust `?`);
a matching entry whose link resolves returns the source node lookup
(which may itself be `none`); otherwise scanning continues. -/
def scanInputs (p : CParser) (inputName : String) : List Json → Option Json
  | [] => none
  | d :: rest =>
    match d.asObj with
    | none => scanInputs p inputName rest
    | some inputObj =>
      match objGet inputObj "name" with
      | none => none
      | some nv =>
        match nv.asStr with
        | none => none
        | some nm =>
          if nm = inputName then
            match objGet inputObj "link" with
            | none => none
            | some lv =>
              match lv.asI64 with
              | none => scanInputs p inputName rest
              | some linkId =>
                match lmGet p.linksMap linkId with
                | none => scanInputs p inputName rest
                | some (sourceId, _) => hmGet p.nodesById sourceId
          else scanInputs p inputName rest

/-- `ComfyUIWorkflowParser::get_input_source_node`. -/
def getInputSourceNode (p : CParser) (node : Json) (inputName : String) : Option Json :=
  if p.isUI then
    match (node.get "inputs").bind Json.asArr with
    | none => none
    | some inputs => scanInputs p inputName inputs
  else
    match (node.get "inputs").bind Json.asObj with
    | none => none
    | some inputs =>
      match (objGet inputs inputName).bind Json.asArr with
      | none => none
      | some inputRef =>
        if inputRef.length ≥ 1 then
          match (inputRef.get? 0).bind Json.asStr with
          | none => none
          | some sourceId => hmGet p.nodesById sourceId
        else none

/-- `ComfyUIWorkflowParser::get_widget_value`: UI format consults the
`properties` object first, then falls back to returning the *entire*
`widgets_values` value; API format reads the named field of `inputs`. -/
def getWidgetValue (p : CParser) (node : Json) (paramName : String) : Option Json :=
  if p.isUI then
    match node.asObj with
    | none => none
    | some nodeObj =>
      match (objGet nodeObj "properties").bind Json.asObj with
      | some props =>
        match objGet props paramName with
        | some v => some v
        | none => objGet nodeObj "widgets_values"
      | none => objGet nodeObj "widgets_values"
  else
    (node.get "inputs").bind (fun iv => iv.asObj.bind (fun inputs => objGet inputs paramName))

/-- `ComfyUIWorkflowParser::find_source_node`: hop-bounded backward walk.
The `for _ in 0..max_hops` loop is modelled by structural recursion on the
remaining hop budget; every `break` / `?`-abort path returns `none`. -/
def findSourceNode (p : CParser) (stopAtTypes : List String) (inputName : String) :
    Nat → String → Option Json
  | 0, _ => none
  | hops + 1, currentNodeId =>
    match hmGet p.nodesById currentNodeId with
    | none => none
    | some node =>
      match getNodeType p node with
      | none => none
      | some nodeType =>
        if stopAtTypes.contains nodeType then some node
        else if nodeType = "Primitive" ∨ nodeType = "PrimitiveNode" then
          findSourceNode p stopAtTypes inputName hops currentNodeId
        else
          match getInputSourceNode p node inputName with
          | none => none
          | some sourceNode =>
            match sourceNode.get "id" with
            | none => none
            | some idv =>
              match idv.asStr with
              | some s => findSourceNode p stopAtTypes inputName hops s
              | none =>
                match idv.asI64 with
                | some i => findSourceNode p stopAtTypes inputName hops (toString i)
                | none => none

/-- `find_source_node` instrumented with the number of executed loop
iterations (each entry into the loop body counts one). -/
def findSourceNodeSteps (p : CParser) (stopAtTypes : List String) (inputName : String) :
    Nat → String → Option Json × Nat
  | 0, _ => (none, 0)
  | hops + 1, currentNodeId =>
    match hmGet p.nodesById currentNodeId with
    | none => (none, 1)
    | some node =>
      match getNodeType p node with
      | none => (none, 1)
      | some nodeType =>
        if stopAtTypes.contains nodeType then (some node, 1)
        else if nodeType = "Primitive" ∨ nodeType = "PrimitiveNode" then
          let r := findSourceNodeSteps p stopAtTypes inputName hops currentNodeId
          (r.1, r.2 + 1)
        else
          match getInputSourceNode p node inputName with
          | none => (none, 1)
          | some sourceNode =>
            match sourceNode.get "id" with
            | none => (none, 1)
            | some idv =>
              match idv.asStr with
              | some s =>
                let r := findSourceNodeSteps p stopAtTypes inputName hops s
                (r.1, r.2 + 1)
              | none =>
                match idv.asI64 with
                | some i =>
                  let r := findSourceNodeSteps p stopAtTypes inputName hops (toString i)
                  (r.1, r.2 + 1)
                | none => (none, 1)

/-- Stringified `id` of a node as read at the top of `extract_model` /
`extract_prompts` / `extract_dimensions`: `as_str`, falling back to
`as_i64().to_string()`. -/
def nodeIdString (node : Json) : Option String :=
  (node.get "id").bind (fun idv =>
    (idv.asStr).orElse (fun _ => idv.asI64.map toString))

/-- `ComfyUIWorkflowParser::extract_sampler_details`. -/
def extractSamplerDetails (p : CParser) (samplerNode : Json) :
    Option String × Option String :=
  ((getWidgetValue p samplerNode "sampler_name").bind Json.asStr,
   (getWidgetValue p samplerNode "scheduler").bind Json.asStr)

/-- `ComfyUIWorkflowParser::extract_model`: resolve the loader node through
the bounded "model" walk (hop limit 20), then try `ckpt_name`, `unet_name`,
`model_name` in order and keep the first present value if it is a string. -/
def extractModel (p : CParser) (samplerNode : Json) : Option String :=
  match nodeIdString samplerNode with
  | none => none
  | some nodeId =>
    match findSourceNode p modelLoaderTypes "model" 20 nodeId with
    | none => none
    | some modelNode =>
      (((getWidgetValue p modelNode "ckpt_name").orElse
          (fun _ => getWidgetValue p modelNode "unet_name")).orElse
          (fun _ => getWidgetValue p modelNode "model_name")).bind Json.asStr

/-- `ComfyUIWorkflowParser::extract_prompts`: one fragment per direction when
the walk to a prompt node succeeds and its `text` widget is a string.  A
missing node id degrades to the empty start id (`unwrap_or_else`). -/
def extractPrompts (p : CParser) (samplerNode : Json) : List String × List String :=
  let nodeId := (nodeIdString samplerNode).getD ""
  let pos :=
    match findSourceNode p promptNodeTypes "positive" 20 nodeId with
    | none => []
    | some posNode =>
      match (getWidgetValue p posNode "text").bind Json.asStr with
      | none => []
      | some text => [text]
  let neg :=
    match findSourceNode p promptNodeTypes "negative" 20 nodeId with
    | none => []
    | some negNode =>
      match (getWidgetValue p negNode "text").bind Json.asStr with
      | none => []
      | some text => [text]
  (pos, neg)

/-- `ComfyUIWorkflowParser::extract_parameters`: `cfg` as f64, `steps` as i64,
directly off the sampler node. -/
def extractParameters (p : CParser) (samplerNode : Json) : Option ℚ × Option Int :=
  ((getWidgetValue p samplerNode "cfg").bind Json.asF64,
   (getWidgetValue p samplerNode "steps").bind Json.asI64)

/-- `ComfyUIWorkflowParser::extract_dimensions`: walk the "latent_image"
edge to an `EmptyLatentImage` node and read `width`/`height`; the pair is
reported only when both resolve. -/
def extractDimensions (p : CParser) (samplerNode : Json) : Option Int × Option Int :=
  let nodeId := (nodeIdString samplerNode).getD ""
  match findSourceNode p ["EmptyLatentImage"] "latent_image" 20 nodeId with
  | none => (none, none)
  | some latentNode =>
    let width := (getWidgetValue p latentNode "width").bind Json.asI64
    let height := (getWidgetValue p latentNode "height").bind Json.asI64
    if width.isSome ∧ height.isSome then (width, height) else (none, none)

/-- `ComfyUIWorkflowParser::process_sampler` (always `Some`). -/
def processSampler (p : CParser) (samplerNode : Json) : ParsedWorkflow :=
  let details := extractSamplerDetails p samplerNode
  let modelName := extractModel p samplerNode
  let prompts := extractPrompts p samplerNode
  let dims := extractDimensions p samplerNode
  let params := extractParameters p samplerNode
  { model_name := modelName
    sampler_name := details.1
    scheduler := details.2
    positive_prompt := String.intercalate "\n---\n" prompts.1
    negative_prompt := String.intercalate "\n---\n" prompts.2
    width := dims.1
    height := dims.2
    cfg := params.1
    steps := params.2 }

/-- Stable insertion of one element into a list sorted by `key`
(`x` goes before `y` only when strictly smaller — stability of
`slice::sort_by_key`). -/
def insertSorted (key : α → Int) (x : α) : List α → List α
  | [] => [x]
  | y :: ys => if key x < key y then x :: y :: ys else y :: insertSorted key x ys

/-- Stable insertion sort by an `Int` key, modelling `sort_by_key`. -/
def sortByKey (key : α → Int) : List α → List α
  | [] => []
  | x :: xs => insertSorted key x (sortByKey key xs)

/-- Sort key of `find_sampler_nodes`: `id.parse::<i64>().unwrap_or(0)`. -/
def samplerSortKey (kv : String × Json) : Int :=
  (parseI64 kv.1).getD 0

/-- `ComfyUIWorkflowParser::find_sampler_nodes`: keep nodes whose type is in
`SAMPLER_TYPES`, sort by numeric id, return the node bodies. -/
def findSamplerNodes (p : CParser) : List Json :=
  let samplers := p.nodesById.filter (fun kv =>
    match getNodeType p kv.2 with
    | some t => samplerTypes.contains t
    | none => false)
  (sortByKey samplerSortKey samplers).map (fun kv => kv.2)

/-- `ComfyUIWorkflowParser::parse`. -/
def parseAll (p : CParser) : List ParsedWorkflow :=
  (findSamplerNodes p).map (processSampler p)

/-- `parser::extract_workflow_metadata` given the already-deserialized JSON
value (serde's string-to-`Value` step is outside this model). -/
def extractWorkflowMetadata (workflowData : Json) : Except String (List ParsedWorkflow) :=
  (parserNew workflowData).map parseAll

/-! ## PNG container scanning (`scanner.rs::extract_png_workflow`)

Files and strings at this layer are byte lists (`List Nat`, each < 256).
`String::from_utf8_lossy` followed by ASCII `to_lowercase`/`contains` is
modelled directly on the bytes: for the ASCII keywords involved
(`"workflow"`, `"prompt"`) lossy UTF-8 decoding is the identity and
`to_lowercase` is byte-wise ASCII lowercasing. -/

/-- The 8-byte PNG signature `[137, 80, 78, 71, 13, 10, 26, 10]`. -/
def pngSig : List Nat := [137, 80, 78, 71, 13, 10, 26, 10]

/-- The chunk tag `b"tEXt"`. -/
def tEXtTag : List Nat := [116, 69, 88, 116]

/-- Big-endian `u32::from_be_bytes` of a 4-byte buffer. -/
def be32dec : List Nat → Nat
  | [a, b, c, d] => ((a * 256 + b) * 256 + c) * 256 + d
  | _ => 0

/-- Big-endian encoding of a length below `2^32` into 4 bytes. -/
def be32enc (n : Nat) : List Nat :=
  [n / 16777216 % 256, n / 65536 % 256, n / 256 % 256, n % 256]

/-- ASCII lowercasing of one byte. -/
def asciiLower (b : Nat) : Nat := if 65 ≤ b ∧ b ≤ 90 then b + 32 else b

/-- `str::contains` of a byte sequence (substring search). -/
def containsSeq (needle : List Nat) : List Nat → Bool
  | [] => needle.isEmpty
  | b :: rest => needle.isPrefixOf (b :: rest) || containsSeq needle rest

/-- UTF-8 bytes of `"workflow"`. -/
def workflowBytes : List Nat := [119, 111, 114, 107, 102, 108, 111, 119]

/-- UTF-8 bytes of `"prompt"`. -/
def promptBytes : List Nat := [112, 114, 111, 109, 112, 116]

/-- The keyword test of `extract_png_workflow`:
`keyword.to_lowercase().contains("workflow") || ...contains("prompt")`. -/
def keywordMatches (keyword : List Nat) : Bool :=
  containsSeq workflowBytes (keyword.map asciiLower) ||
  containsSeq promptBytes (keyword.map asciiLower)

/-- The chunk loop of `extract_png_workflow`, on the bytes following the
signature.  Each iteration reads a 4-byte length, a 4-byte type tag, and
either scans a `tEXt` payload (splitting on the first NUL into keyword and
text, returning the text on a keyword match, else skipping the 4 CRC bytes)
or skips `length + 4` bytes.  Any failing `read_exact` breaks the loop with
`none`.  The fuel argument only bounds the recursion; each iteration consumes
at least 8 bytes, so fuel equal to the byte count is never exhausted. -/
def scanChunks : Nat → List Nat → Option (List Nat)
  | 0, _ => none
  | fuel + 1, bs =>
    if bs.length < 4 then none
    else
      let chunkLen := be32dec (bs.take 4)
      let rest1 := bs.drop 4
      if rest1.length < 4 then none
      else
        let tag := rest1.take 4
        let rest2 := rest1.drop 4
        if tag = tEXtTag then
          if rest2.length < chunkLen then none
          else
            let data := rest2.take chunkLen
            let rest3 := rest2.drop chunkLen
            match data.findIdx? (fun b => b = 0) with
            | some nulPos =>
              if keywordMatches (data.take nulPos) then some (data.drop (nulPos + 1))
              else scanChunks fuel (rest3.drop 4)
            | none => scanChunks fuel (rest3.drop 4)
        else
          if rest2.length < chunkLen + 4 then none
          else scanChunks fuel (rest2.drop (chunkLen + 4))

/-- `scanner.rs::extract_png_workflow` over the raw file bytes: check the
signature (an unreadable signature is the only `Err`; a wrong signature is
`Ok(None)`), then run the chunk loop. -/
def extractPngWorkflow (bytes : List Nat) : Except String (Option (List Nat)) :=
  if bytes.length < 8 then .error "Failed to read PNG signature"
  else if bytes.take 8 = pngSig then .ok (scanChunks bytes.length (bytes.drop 8))
  else .ok none

/-! ## Prompt preview (`scanner.rs::process_file` lines 193-199) -/

/-- `str::is_char_boundary` at byte index `i`: start of the string, end of
the string, or a byte that is not a UTF-8 continuation byte. -/
def isCharBoundary (bytes : List Nat) (i : Nat) : Bool :=
  if i = 0 then true
  else if i = bytes.length then true
  else
    match bytes.get? i with
    | some b => b < 128 || 192 ≤ b
    | none => false

/-- The preview computation on the first positive prompt, at byte level:
`first_prompt.len()` is a byte count and `&first_prompt[..150]` a byte
slice, which panics (modelled as `none`) when index 150 is not a character
boundary; `"..."` (bytes `46, 46, 46`) is appended after truncation. -/
def promptPreviewBytes (prompt : List Nat) : Option (List Nat) :=
  if prompt.length > 150 then
    if isCharBoundary prompt 150 then some (prompt.take 150 ++ [46, 46, 46])
    else none
  else some prompt

/-- UTF-8 encoding of one character. -/
def charUtf8 (c : Char) : List Nat :=
  let n := c.toNat
  if n < 128 then [n]
  else if n < 2048 then [192 + n / 64, 128 + n % 64]
  else if n < 65536 then [224 + n / 4096, 128 + n / 64 % 64, 128 + n % 64]
  else [240 + n / 262144, 128 + n / 4096 % 64, 128 + n / 64 % 64, 128 + n % 64]

/-- UTF-8 bytes of a string (`str::as_bytes`). -/
def strBytes (s : String) : List Nat :=
  s.toList.foldr (fun c acc => charUtf8 c ++ acc) []

/-- ASCII lowercasing of one character. -/
def lowerChar (c : Char) : Char :=
  if 65 ≤ c.toNat ∧ c.toNat ≤ 90 then Char.ofNat (c.toNat + 32) else c

/-- `str::to_lowercase`, restricted to ASCII (every string it is applied to
below — file extensions — is ASCII). -/
def lowerStr (s : String) : String := String.mk (s.toList.map lowerChar)

/-- Decidable equality for `Except` (not provided by the library). -/
instance {ε α : Type} [DecidableEq ε] [DecidableEq α] : DecidableEq (Except ε α) := fun a b =>
  match a, b with
  | .ok x, .ok y => if h : x = y then .isTrue (by rw [h]) else .isFalse (by simp [h])
  | .error x, .error y => if h : x = y then .isTrue (by rw [h]) else .isFalse (by simp [h])
  | .ok _, .error _ => .isFalse (by simp)
  | .error _, .ok _ => .isFalse (by simp)

/-! ## Sync orchestrator model (`scanner.rs::process_file` / `full_sync`,
`database.rs` CRUD)

The record store is modelled as in-memory lists of rows; each SQL statement
of `database.rs` is transcribed to its effect on those lists.  The serde JSON
deserializer (`serde_json::from_str`) is an external library and enters the
model as an oracle parameter `jsonParse : List Nat → Option Json` (`none` =
parse error).  The external image probe (`image::open`) enters as the
`probedDims` field of the disk-file abstraction.  The rayon worker pool is
modelled by a sequential fold over the processing set: every per-path task
touches only rows keyed by its own path-derived id, and the claims below are
all per-task or about untouched rows. -/

/-- `ScannerConfig::new().image_extensions`. -/
def imageExtensions : List String := [".png", ".jpg", ".jpeg", ".webp", ".bmp", ".gif"]

/-- `ScannerConfig::new().video_extensions`. -/
def videoExtensions : List String := [".mp4", ".avi", ".mov", ".mkv", ".webm", ".flv"]

/-- `ScannerConfig::new().audio_extensions`. -/
def audioExtensions : List String := [".mp3", ".wav", ".ogg", ".flac", ".m4a"]

/-- `models::FileEntry` (one row of the `files` table).  `mtime` is the f64
timestamp, carried exactly as a rational.  `prompt_preview` is kept as UTF-8
bytes because it is the one string the source produces by byte slicing. -/
structure FileEntry where
  id : String
  path : String
  name : String
  file_type : String
  mtime : ℚ
  has_workflow : Bool
  is_favorite : Bool
  prompt_preview : Option (List Nat)
  sampler_names : Option String
  dimensions : Option String
  duration : Option String
  sampler_count : Int
deriving DecidableEq, Repr

/-- `models::WorkflowMetadata` (one row of the `workflow_metadata` table). -/
structure WorkflowMetadata where
  id : Option Int
  file_id : String
  sampler_index : Int
  model_name : Option String
  sampler_name : Option String
  scheduler : Option String
  cfg : Option ℚ
  steps : Option Int
  positive_prompt : Option String
  negative_prompt : Option String
  width : Option Int
  height : Option Int
deriving DecidableEq, Repr

/-- One on-disk file as consumed by `process_file`: path with its derived
name and extension (path decomposition is not re-modelled), modification
time (as read by `get_mtime`), raw bytes, and the external image probe's
answer. -/
structure DiskFile where
  path : String
  name : String
  ext : String
  mtime : ℚ
  bytes : List Nat
  probedDims : Option (Nat × Nat)

/-- `scanner.rs::generate_file_id`: hex of the first 16 bytes of the SHA-256
of the path.  The hash itself is irrelevant to every claim; what matters is
that the id is a pure (collision-free) function of the path, so it is
modelled as an explicit injective tagging. -/
def fileId (path : String) : String := "sha256-16:" ++ path

/-- `scanner.rs::extract_workflow_from_file`: PNG files run the container
scan and the graph parse; every parse-stage failure (serde error, parser
constructor error) and an empty record list degrade to `(true, [])`; a
missing/failed container degrades to `(false, [])`; non-PNG extensions
report `(false, [])`.  No branch returns `Err`. -/
def extractWorkflowFromFile (jsonParse : List Nat → Option Json) (f : DiskFile) :
    Except String (Bool × List ParsedWorkflow) :=
  if lowerStr f.ext = "png" then
    match extractPngWorkflow f.bytes with
    | .ok (some workflowJson) =>
      match jsonParse workflowJson with
      | none => .ok (true, [])
      | some workflowData =>
        match extractWorkflowMetadata workflowData with
        | .ok metadata => if metadata.isEmpty then .ok (true, []) else .ok (true, metadata)
        | .error _ => .ok (true, [])
    | .ok none => .ok (false, [])
    | .error _ => .ok (false, [])
  else .ok (false, [])

/-- Deduplication used for `sampler_names`: the source collects into a
`HashSet` and joins in arbitrary set order; the model keeps the first
occurrence of each name in discovery order (no claim depends on the
order). -/
def uniqueKeepFirstAux (seen : List String) : List String → List String
  | [] => []
  | x :: xs =>
    if seen.contains x then uniqueKeepFirstAux seen xs
    else x :: uniqueKeepFirstAux (x :: seen) xs

/-- Entry point of the deduplication. -/
def uniqueKeepFirst (l : List String) : List String := uniqueKeepFirstAux [] l

/-- `scanner.rs::process_file`: assemble the `FileEntry` for a disk file plus
its parsed workflows.  The outer `Option` models the byte-slice panic of the
preview computation (`none` = panic, see `promptPreviewBytes`); the inner
`Except` is the function's `Result` (no error source remains inside the
model, but the shape is kept).  `is_favorite` is always `false` here. -/
def processFile (jsonParse : List Nat → Option Json) (f : DiskFile) :
    Option (Except String (FileEntry × List ParsedWorkflow)) :=
  let file_id := fileId f.path
  let extLower := "." ++ lowerStr f.ext
  let file_type :=
    if imageExtensions.contains extLower then "image"
    else if videoExtensions.contains extLower then "video"
    else if audioExtensions.contains extLower then "audio"
    else "unknown"
  match extractWorkflowFromFile jsonParse f with
  | .error e => some (.error e)
  | .ok (has_workflow, workflow_metadata) =>
    let dimensions : Option String :=
      if file_type = "image" then
        f.probedDims.map (fun wh => toString wh.1 ++ "x" ++ toString wh.2)
      else none
    match workflow_metadata with
    | [] =>
      some (.ok
        ({ id := file_id, path := f.path, name := f.name, file_type := file_type,
           mtime := f.mtime, has_workflow := has_workflow, is_favorite := false,
           prompt_preview := none, sampler_names := none,
           dimensions := dimensions, duration := none, sampler_count := 0 }, []))
    | first :: _ =>
      match promptPreviewBytes (strBytes first.positive_prompt) with
      | none => none
      | some preview =>
        let samplersStr :=
          String.intercalate ", " (uniqueKeepFirst (workflow_metadata.filterMap (fun m => m.sampler_name)))
        some (.ok
          ({ id := file_id, path := f.path, name := f.name, file_type := file_type,
             mtime := f.mtime, has_workflow := has_workflow, is_favorite := false,
             prompt_preview := some preview, sampler_names := some samplersStr,
             dimensions := dimensions, duration := none,
             sampler_count := (workflow_metadata.length : Int) }, workflow_metadata))

/-- The record store: the `files` and `workflow_metadata` tables as row
lists (row order is immaterial; SQL reads sort or filter explicitly). -/
structure GalleryDB where
  files : List FileEntry
  meta : List WorkflowMetadata
deriving DecidableEq, Repr

/-- `database::get_file_by_id` (the `sampler_count` subquery is part of the
stored row in this model and left untouched by the read). -/
def getFileById (db : GalleryDB) (file_id : String) : Option FileEntry :=
  db.files.find? (fun fl => fl.id = file_id)

/-- `database::upsert_file`: `INSERT OR REPLACE INTO files`.  SQLite's
REPLACE conflict resolution deletes every pre-existing row that violates a
uniqueness constraint (`id` PRIMARY KEY, `path UNIQUE`) before inserting,
and because sqlx opens connections with `PRAGMA foreign_keys = ON` (its
default) and the schema declares
`workflow_metadata.file_id REFERENCES files(id) ON DELETE CASCADE`
(database.rs:82), those row deletions cascade to the replaced files'
metadata rows. -/
def upsertFile (db : GalleryDB) (e : FileEntry) : GalleryDB :=
  let removedIds :=
    (db.files.filter (fun fl => fl.id = e.id ∨ fl.path = e.path)).map (fun fl => fl.id)
  { files := e :: db.files.filter (fun fl => ¬ (fl.id = e.id ∨ fl.path = e.path)),
    meta := db.meta.filter (fun m => ¬ removedIds.contains m.file_id) }

/-- `database::delete_file`: `DELETE FROM files WHERE id = ?`, with the
FK cascade removing the row's metadata.  (Defined for reference: `full_sync`
never calls it, see `c1_sync_never_deletes`.) -/
def deleteFile (db : GalleryDB) (file_id : String) : GalleryDB :=
  { files := db.files.filter (fun fl => fl.id ≠ file_id),
    meta := db.meta.filter (fun m => m.file_id ≠ file_id) }

/-- `database::insert_workflow_metadata`: `INSERT OR REPLACE INTO
workflow_metadata`; the REPLACE resolves conflicts on the unique index
`(file_id, sampler_index)`. -/
def insertWorkflowMetadataRow (db : GalleryDB) (m : WorkflowMetadata) : GalleryDB :=
  { db with
    meta := m :: db.meta.filter (fun x =>
      ¬ (x.file_id = m.file_id ∧ x.sampler_index = m.sampler_index)) }

/-- The metadata rows built by the dispatch loop (scanner.rs:426-440):
`sampler_index` is the enumeration index and the prompt strings are wrapped
in `Some`. -/
def buildMetaList (file_id : String) (ws : List ParsedWorkflow) : List WorkflowMetadata :=
  ws.enum.map (fun iw =>
    { id := none, file_id := file_id, sampler_index := (iw.1 : Int),
      model_name := iw.2.model_name, sampler_name := iw.2.sampler_name,
      scheduler := iw.2.scheduler, cfg := iw.2.cfg, steps := iw.2.steps,
      positive_prompt := some iw.2.positive_prompt,
      negative_prompt := some iw.2.negative_prompt,
      width := iw.2.width, height := iw.2.height })

/-- One dispatch task of `full_sync` (scanner.rs:396-449): process the file;
on task error the store is untouched; otherwise read any existing record for
the same id and copy its `is_favorite` forward, upsert the file row, then
insert the freshly built metadata rows.  `none` models a `process_file`
panic unwinding the worker. -/
def syncProcessPath (jsonParse : List Nat → Option Json) (db : GalleryDB) (f : DiskFile) :
    Option GalleryDB :=
  match processFile jsonParse f with
  | none => none
  | some (.error _) => some db
  | some (.ok (entry0, workflow_metadata)) =>
    let entry :=
      match getFileById db entry0.id with
      | some existing => { entry0 with is_favorite := existing.is_favorite }
      | none => entry0
    let db1 := upsertFile db entry
    some ((buildMetaList entry.id workflow_metadata).foldl insertWorkflowMetadataRow db1)

/-! ## The diff of `full_sync` (scanner.rs:361-389) -/

/-- `f64 as i64`: truncation toward zero (the saturation at the `i64` range
is immaterial for timestamps and not modelled). -/
def ratTrunc (q : ℚ) : Int := q.num.tdiv (q.den : Int)

/-- Key set of a `(path, mtime)` snapshot. -/
def pathsOf (files : List (String × ℚ)) : List String := files.map Prod.fst

/-- `HashMap::get(path).copied().unwrap_or(0.0)`. -/
def mtimeOf (files : List (String × ℚ)) (p : String) : ℚ :=
  ((files.find? (fun kv => kv.1 = p)).map (fun kv => kv.2)).getD 0

/-- `to_delete = db_paths − disk_paths`. -/
def deltaToDelete (dbFiles diskFiles : List (String × ℚ)) : List String :=
  (pathsOf dbFiles).filter (fun p => !((pathsOf diskFiles).contains p))

/-- `to_add = disk_paths − db_paths`. -/
def deltaToAdd (dbFiles diskFiles : List (String × ℚ)) : List String :=
  (pathsOf diskFiles).filter (fun p => !((pathsOf dbFiles).contains p))

/-- `to_check = disk_paths ∩ db_paths`. -/
def deltaToCheck (dbFiles diskFiles : List (String × ℚ)) : List String :=
  (pathsOf diskFiles).filter (fun p => (pathsOf dbFiles).contains p)

/-- `to_update`: paths in the intersection whose disk mtime, truncated to
integer seconds, strictly exceeds the stored mtime truncated likewise. -/
def deltaToUpdate (dbFiles diskFiles : List (String × ℚ)) : List String :=
  (deltaToCheck dbFiles diskFiles).filter (fun p =>
    ratTrunc (mtimeOf diskFiles p) > ratTrunc (mtimeOf dbFiles p))

/-- `scanner.rs::full_sync` on an already-scanned disk snapshot: read the
stored snapshot, compute the delta, and process `to_add ++ to_update`.
The `to_delete` loop of the source (scanner.rs:386-389) performs no store
operation — it is an acknowledged stub ("For now, just note that we'd
delete them") — and is therefore absent here as well.  `none` propagates a
worker panic. -/
def fullSync (jsonParse : List Nat → Option Json) (db : GalleryDB) (disk : List DiskFile) :
    Option GalleryDB :=
  let dbFiles := db.files.map (fun fl => (fl.path, fl.mtime))
  let diskFiles := disk.map (fun f => (f.path, f.mtime))
  let filesToProcess :=
    deltaToAdd dbFiles diskFiles ++ deltaToUpdate dbFiles diskFiles
  filesToProcess.foldl (fun acc p =>
    acc.bind (fun cur =>
      match disk.find? (fun f => f.path = p) with
      | some f => syncProcessPath jsonParse cur f
      | none => some cur)) (some db)

/-! ## Logical graphs and their two wire encodings (claim C5)

A logical graph is the format-independent content the spec speaks about:
nodes with a numeric id, a type string, scalar widget values, and named
input edges.  `encodeA` produces the format-A wire form (explicit `nodes`
array — scalars under `properties`, the accessor the source reads for
format A — plus a `links` array), `encodeB` the format-B wire form
(self-keyed node map, scalars and inline `[source, slot]` references
together under `inputs`).  These two encoders are the spec-side definitions
of the refinement claim; everything they are fed into is the source
embedding above. -/

/-- A scalar widget value. -/
inductive LVal where
  | vstr (s : String)
  | vint (i : Int)
  | vnum (q : ℚ)
deriving DecidableEq, Repr

/-- Scalar JSON encoding, identical in both formats. -/
def LVal.toJson : LVal → Json
  | .vstr s => Json.jstr s
  | .vint i => Json.jint i
  | .vnum q => Json.jnum q

/-- A named input edge: `linkId` is its id in the format-A link table,
`src`/`slot` its source node and output slot. -/
structure LEdge where
  name : String
  linkId : Int
  src : Int
  slot : Int
deriving DecidableEq, Repr

/-- A logical node. -/
structure LNode where
  id : Int
  typ : String
  params : List (String × LVal)
  edges : List LEdge
deriving DecidableEq, Repr

/-- A logical graph. -/
structure LGraph where
  nodes : List LNode
deriving DecidableEq, Repr

/-- The stringified node id, the key under which both formats index it. -/
def idStr (n : LNode) : String := toString n.id

/-- All edges of the graph (the format-A link table rows). -/
def allEdges (g : LGraph) : List LEdge :=
  g.nodes.foldr (fun n acc => n.edges ++ acc) []

/-- Format-A encoding of one node. -/
def encANode (n : LNode) : Json :=
  Json.jobj
    [("id", Json.jint n.id), ("type", Json.jstr n.typ),
     ("properties", Json.jobj (n.params.map (fun kv => (kv.1, kv.2.toJson)))),
     ("inputs", Json.jarr (n.edges.map (fun e =>
        Json.jobj [("name", Json.jstr e.name), ("link", Json.jint e.linkId)])))]

/-- Format-A encoding of the graph. -/
def encodeA (g : LGraph) : Json :=
  Json.jobj
    [("nodes", Json.jarr (g.nodes.map encANode)),
     ("links", Json.jarr ((allEdges g).map (fun e =>
        Json.jarr [Json.jint e.linkId, Json.jint e.src, Json.jint e.slot])))]

/-- Format-B `inputs` map of one node: scalars and inline references share
one namespace. -/
def encBInputs (n : LNode) : List (String × Json) :=
  n.params.map (fun kv => (kv.1, kv.2.toJson)) ++
  n.edges.map (fun e => (e.name, Json.jarr [Json.jstr (toString e.src), Json.jint e.slot]))

/-- Format-B encoding of one node body (before the parser adds `"id"`). -/
def encBNodeBody (n : LNode) : Json :=
  Json.jobj [("class_type", Json.jstr n.typ), ("inputs", Json.jobj (encBInputs n))]

/-- Format-B encoding of the graph. -/
def encodeB (g : LGraph) : Json :=
  Json.jobj (g.nodes.map (fun n => (idStr n, encBNodeBody n)))

/-- The format-B node as it sits in the parser's index (`"id"` appended by
`ComfyUIWorkflowParser::new`). -/
def encBNode (n : LNode) : Json :=
  Json.jobj
    [("class_type", Json.jstr n.typ), ("inputs", Json.jobj (encBInputs n)),
     ("id", Json.jstr (idStr n))]

/-- The scalar widget names the extraction queries off nodes. -/
def reservedWidgetNames : List String :=
  ["sampler_name", "scheduler", "cfg", "steps", "ckpt_name", "unet_name",
   "model_name", "text", "width", "height"]

/-- Well-formedness of a logical graph for the equivalence theorem:
distinct node keys, no node keyed `"nodes"` (which would flip format
detection), distinct link ids, and no input edge whose name collides with a
scalar widget name or with one of the node's own scalar parameters (in
format B those share the `inputs` namespace; the counterexample
`c5_counterexample` shows the last condition is necessary). -/
def LGraph.WF (g : LGraph) : Prop :=
  (g.nodes.map idStr).Nodup ∧
  (∀ n ∈ g.nodes, idStr n ≠ "nodes") ∧
  ((allEdges g).map (fun e => e.linkId)).Nodup ∧
  (∀ n ∈ g.nodes, ∀ e ∈ n.edges,
    ¬ e.name ∈ reservedWidgetNames ∧ ¬ e.name ∈ n.params.map Prod.fst)

instance (g : LGraph) : Decidable (LGraph.WF g) := by
  unfold LGraph.WF
  infer_instance

/-- `parser::extract_workflow_metadata` collapsed to a plain record list
(a constructor error yields no records), used to compare the two wire
formats end to end. -/
def parseWorkflow (j : Json) : List ParsedWorkflow :=
  match parserNew j with
  | .ok p => parseAll p
  | .error _ => []

/-- Node lookup in a logical graph by stringified id. -/
def findNode (g : LGraph) (s : String) : Option LNode :=
  g.nodes.find? (fun n => idStr n = s)

/-- First input edge of a node with the given name. -/
def edgeLookup (n : LNode) (nm : String) : Option LEdge :=
  n.edges.find? (fun e => e.name = nm)

/-- First scalar parameter of a node with the given name. -/
def paramLookup (n : LNode) (p : String) : Option LVal :=
  (n.params.find? (fun kv => kv.1 = p)).map (fun kv => kv.2)

/-- The format-independent bounded backward walk that both encodings of a
well-formed graph implement (proved in `c5_format_equivalence`'s lemmas). -/
def ltrav (g : LGraph) (stop : List String) (nm : String) : Nat → String → Option LNode
  | 0, _ => none
  | hops + 1, s =>
    match findNode g s with
    | none => none
    | some n =>
      if stop.contains n.typ then some n
      else if n.typ = "Primitive" ∨ n.typ = "PrimitiveNode" then ltrav g stop nm hops s
      else
        match edgeLookup n nm with
        | none => none
        | some e =>
          match findNode g (toString e.src) with
          | none => none
          | some _ => ltrav g stop nm hops (toString e.src)

/-! ## Concrete artifacts used by counterexamples and witnesses -/

/-- A PNG container holding the signature and a single `tEXt` chunk
`keyword NUL text` followed by a (dummy) CRC. -/
def oneChunkContainer (keyword text : List Nat) : List Nat :=
  pngSig ++ be32enc (keyword.length + 1 + text.length) ++ tEXtTag ++
    keyword ++ [0] ++ text ++ [0, 0, 0, 0]

/-- The rational 7.5 (= 15/2), written as an explicit reduced fraction so
that kernel evaluation of witnesses does not have to normalize a division. -/
def sevenPointFive : ℚ := ⟨15, 2, by decide, by decide⟩

/-- Format-B workflow with exactly one sampler node (keyed `nid`) carrying
`cfg = 7.5`, `steps = 20`, `sampler_name = "euler"` (claim C4). -/
def c4Workflow (nid : String) : Json :=
  Json.jobj
    [(nid, Json.jobj
      [("class_type", Json.jstr "KSampler"),
       ("inputs", Json.jobj
         [("cfg", Json.jnum sevenPointFive),
          ("steps", Json.jint 20),
          ("sampler_name", Json.jstr "euler")])])]

/-- The record the parser produces for `c4Workflow`: the three sampler
fields set, all optional fields `none`, and the prompt strings empty. -/
def c4Record : ParsedWorkflow :=
  { model_name := none, sampler_name := some "euler", scheduler := none,
    positive_prompt := "", negative_prompt := "", width := none,
    height := none, cfg := some sevenPointFive, steps := some 20 }

/-- Format-B workflow with one pass-through node referencing itself
(claim C7's cyclic graph). -/
def cycWorkflow : Json :=
  Json.jobj
    [("1", Json.jobj
      [("class_type", Json.jstr "PrimitiveNode"),
       ("inputs", Json.jobj [("model", Json.jarr [Json.jstr "1", Json.jint 0])])])]

/-- The parser state for `cycWorkflow`. -/
def cycParser : CParser :=
  (parserNew cycWorkflow).toOption.getD { isUI := false, nodesById := [], linksMap := [] }

/-- A stored record whose file has disappeared from disk (claim C1). -/
def entryC1 : FileEntry :=
  { id := fileId "gone.png", path := "gone.png", name := "gone.png",
    file_type := "image", mtime := 100, has_workflow := false,
    is_favorite := true, prompt_preview := none, sampler_names := none,
    dimensions := none, duration := none, sampler_count := 0 }

/-- A store holding only `entryC1`. -/
def dbC1 : GalleryDB := { files := [entryC1], meta := [] }

/-- JSON-parse oracle returning the C4 workflow for any payload. -/
def jpC : List Nat → Option Json := fun _ => some (c4Workflow "3")

/-- A PNG disk file whose container carries a matching `tEXt` chunk with an
empty payload (the oracle `jpC` supplies the parsed workflow). -/
def fC : DiskFile :=
  { path := "img.png", name := "img.png", ext := "png", mtime := 200,
    bytes := oneChunkContainer workflowBytes [], probedDims := some (512, 512) }

/-- The prior stored record for `fC`'s path: favorited, older mtime. -/
def priorEntryC : FileEntry :=
  { id := fileId "img.png", path := "img.png", name := "img.png",
    file_type := "image", mtime := 100, has_workflow := true,
    is_favorite := true, prompt_preview := none, sampler_names := none,
    dimensions := none, duration := none, sampler_count := 2 }

/-- A metadata row of the earlier ingestion of `fC`'s path. -/
def oldRowC (i : Int) : WorkflowMetadata :=
  { id := none, file_id := fileId "img.png", sampler_index := i,
    model_name := some "old_model", sampler_name := some "ddim",
    scheduler := none, cfg := none, steps := none,
    positive_prompt := some "old", negative_prompt := some "neg",
    width := none, height := none }

/-- Store before re-ingesting `fC`: the prior record and two metadata rows. -/
def dbC : GalleryDB := { files := [priorEntryC], meta := [oldRowC 0, oldRowC 1] }

/-- The `FileEntry` `process_file` assembles for `fC` under `jpC`. -/
def procEntryC : FileEntry :=
  { id := fileId "img.png", path := "img.png", name := "img.png",
    file_type := "image", mtime := 200, has_workflow := true,
    is_favorite := false, prompt_preview := some [], sampler_names := some "euler",
    dimensions := some "512x512", duration := none, sampler_count := 1 }

/-- The store after the `fC` task. -/
def dbOutC : GalleryDB := (syncProcessPath jpC dbC fC).getD { files := [], meta := [] }

/-- The graph on which the two wire formats disagree (claim C5): the loader
node carries an input edge named `ckpt_name` next to a scalar `unet_name`.
In format A the widget lookup reads `properties` and falls through to
`unet_name`; in format B the edge reference shadows it inside `inputs`. -/
def gBad : LGraph :=
  { nodes :=
      [{ id := 1, typ := "KSampler", params := [],
         edges := [{ name := "model", linkId := 10, src := 2, slot := 0 }] },
       { id := 2, typ := "CheckpointLoaderSimple",
         params := [("unet_name", LVal.vstr "foo")],
         edges := [{ name := "ckpt_name", linkId := 11, src := 1, slot := 0 }] }] }

/-- A well-formed graph exercising every extraction path (claim C5's
witness): sampler with scalar widgets and model/positive/negative/latent
edges to a loader, two prompt nodes and a latent-size node. -/
def gEx : LGraph :=
  { nodes :=
      [{ id := 3, typ := "KSampler",
         params := [("sampler_name", LVal.vstr "euler"), ("scheduler", LVal.vstr "normal"),
                    ("cfg", LVal.vnum 8), ("steps", LVal.vint 30)],
         edges := [{ name := "model", linkId := 1, src := 4, slot := 0 },
                   { name := "positive", linkId := 2, src := 6, slot := 0 },
                   { name := "negative", linkId := 3, src := 7, slot := 0 },
                   { name := "latent_image", linkId := 4, src := 5, slot := 0 }] },
       { id := 4, typ := "CheckpointLoaderSimple",
         params := [("ckpt_name", LVal.vstr "sd15.safetensors")], edges := [] },
       { id := 5, typ := "EmptyLatentImage",
         params := [("width", LVal.vint 512), ("height", LVal.vint 768)], edges := [] },
       { id := 6, typ := "CLIPTextEncode",
         params := [("text", LVal.vstr "a cat")], edges := [] },
       { id := 7, typ := "CLIPTextEncode",
         params := [("text", LVal.vstr "blurry")], edges := [] }] }

/-- The node index the UI branch of the parser builds for `encodeA g`. -/
def ANodes (g : LGraph) : List (String × Json) :=
  g.nodes.map (fun n => (idStr n, encANode n))

/-- The link table built from `encodeA g`'s `links` array. -/
def ALinks (g : LGraph) : List (Int × String × Int) :=
  (allEdges g).map (fun e => (e.linkId, (toString e.src, e.slot)))

/-- The parser state produced by `parserNew (encodeA g)` (proved below). -/
def parserA (g : LGraph) : CParser :=
  { isUI := true, nodesById := ANodes g, linksMap := ALinks g }

/-- The node index the API branch builds for `encodeB g`. -/
def BNodes (g : LGraph) : List (String × Json) :=
  g.nodes.map (fun n => (idStr n, encBNode n))

/-- The parser state produced by `parserNew (encodeB g)` (proved below). -/
def parserB (g : LGraph) : CParser :=
  { isUI := false, nodesById := BNodes g, linksMap := [] }

/-- The sampler nodes of a logical graph in the parser's processing order. -/
def sortedSamplers (g : LGraph) : List LNode :=
  sortByKey (fun n => (parseI64 (idStr n)).getD 0)
    (g.nodes.filter (fun n => samplerTypes.contains n.typ))

/-! ## Theorems -/

theorem findSourceNodeSteps_le (p : CParser) (stop : List String) (nm : String) :
    ∀ (hops : Nat) (s : String), (findSourceNodeSteps p stop nm hops s).2 ≤ hops := by
  intro hops
  induction hops with
  | zero => intro s; simp [findSourceNodeSteps]
  | succ h ih =>
    intro s
    simp only [findSourceNodeSteps]
    split
    · simp
    · split
      · simp
      · split
        · simp
        · split
          · exact Nat.succ_le_succ (ih s)
          · split
            · simp
            · split
              · simp
              · split
                · exact Nat.succ_le_succ (ih _)
                · split
                  · exact Nat.succ_le_succ (ih _)
                  · simp

theorem findSourceNodeSteps_fst (p : CParser) (stop : List String) (nm : String) :
    ∀ (hops : Nat) (s : String),
      (findSourceNodeSteps p stop nm hops s).1 = findSourceNode p stop nm hops s := by
  intro hops
  induction hops with
  | zero => intro s; simp [findSourceNodeSteps, findSourceNode]
  | succ h ih =>
    intro s
    simp only [findSourceNodeSteps, findSourceNode]
    split
    · simp
    · split
      · simp
      · split
        · simp
        · split
          · exact ih s
          · split
            · simp
            · split
              · simp
              · split
                · exact ih _
                · split
                  · exact ih _
                  · simp

theorem findSourceNode_stops_at (p : CParser) (stop : List String) (nm : String) :
    ∀ (hops : Nat) (s : String) (v : Json), findSourceNode p stop nm hops s = some v →
      ∃ t, getNodeType p v = some t ∧ t ∈ stop := by
  intro hops
  induction hops with
  | zero => intro s v hv; simp [findSourceNode] at hv
  | succ h ih =>
    intro s v hv
    simp only [findSourceNode] at hv
    cases h1 : hmGet p.nodesById s with
    | none => simp only [h1] at hv; exact Option.noConfusion hv
    | some node =>
      simp only [h1] at hv
      cases h2 : getNodeType p node with
      | none => simp only [h2] at hv; exact Option.noConfusion hv
      | some nodeType =>
        simp only [h2] at hv
        by_cases h3 : stop.contains nodeType = true
        · simp only [h3, if_true] at hv
          obtain rfl := Option.some.inj hv
          exact ⟨nodeType, h2, by simpa using h3⟩
        · rw [if_neg (by simpa using h3)] at hv
          by_cases h4 : nodeType = "Primitive" ∨ nodeType = "PrimitiveNode"
          · rw [if_pos h4] at hv
            exact ih s v hv
          · rw [if_neg h4] at hv
            cases h5 : getInputSourceNode p node nm with
            | none => simp only [h5] at hv; exact Option.noConfusion hv
            | some src =>
              simp only [h5] at hv
              cases h6 : src.get "id" with
              | none => simp only [h6] at hv; exact Option.noConfusion hv
              | some idv =>
                simp only [h6] at hv
                cases h7 : idv.asStr with
                | some s2 =>
                  simp only [h7] at hv
                  exact ih _ v hv
                | none =>
                  simp only [h7] at hv
                  cases h8 : idv.asI64 with
                  | none => simp only [h8] at hv; exact Option.noConfusion hv
                  | some i =>
                    simp only [h8] at hv
                    exact ih _ v hv

/-- C7: for every node index, start node id, input name and stop set —
including graphs with cycles or a pass-through node referencing itself —
the bounded backward walk of `find_source_node` executes at most the hop
limit many loop iterations (the instrumented count agrees with the plain
function), and whenever it returns a node that node's type is in the stop
set; consequently, at `extract_model`'s hop limit 20, if no model-loader
node is reached the resolved `model_name` is `None`. -/
theorem c7_bounded_traversal (p : CParser) (stopAtTypes : List String) (inputName : String)
    (maxHops : Nat) (startNodeId : String) :
    (findSourceNodeSteps p stopAtTypes inputName maxHops startNodeId).2 ≤ maxHops ∧
    (findSourceNodeSteps p stopAtTypes inputName maxHops startNodeId).1 =
      findSourceNode p stopAtTypes inputName maxHops startNodeId ∧
    (∀ v, findSourceNode p stopAtTypes inputName maxHops startNodeId = some v →
      ∃ t, getNodeType p v = some t ∧ t ∈ stopAtTypes) ∧
    (∀ samplerNode nodeId, nodeIdString samplerNode = some nodeId →
      findSourceNode p modelLoaderTypes "model" 20 nodeId = none →
      extractModel p samplerNode = none) := by
  refine ⟨findSourceNodeSteps_le p stopAtTypes inputName maxHops startNodeId,
    findSourceNodeSteps_fst p stopAtTypes inputName maxHops startNodeId,
    fun v hv => findSourceNode_stops_at p stopAtTypes inputName maxHops startNodeId v hv,
    fun samplerNode nodeId hid hfind => ?_⟩
  simp only [extractModel, hid, hfind]

/-- Witness for C7 at the spec's cyclic example: a pass-through
(`PrimitiveNode`) node referencing itself.  The walk burns exactly the 20
permitted iterations and resolves to `None`. -/
theorem c7_bounded_traversal_witness :
    (findSourceNodeSteps cycParser modelLoaderTypes "model" 20 "1").2 ≤ 20 ∧
    findSourceNode cycParser modelLoaderTypes "model" 20 "1" = none ∧
    (findSourceNodeSteps cycParser modelLoaderTypes "model" 20 "1").2 = 20 := by
  refine ⟨(c7_bounded_traversal cycParser modelLoaderTypes "model" 20 "1").1, by rfl, by decide⟩

/-- C9: dimension resolution reports `width` and `height` together or not
at all — the pair extracted for any sampler node is either fully populated
or fully `none`. -/
theorem c9_dimensions_all_or_nothing (p : CParser) (samplerNode : Json) :
    ((extractDimensions p samplerNode).1.isSome ∧ (extractDimensions p samplerNode).2.isSome) ∨
    ((extractDimensions p samplerNode).1 = none ∧ (extractDimensions p samplerNode).2 = none) := by
  simp only [extractDimensions]
  rcases hfind : findSourceNode p ["EmptyLatentImage"] "latent_image" 20
      ((nodeIdString samplerNode).getD "") with _ | latentNode
  · simp [hfind]
  · simp only [hfind]
    by_cases h : ((getWidgetValue p latentNode "width").bind Json.asI64).isSome = true ∧
        ((getWidgetValue p latentNode "height").bind Json.asI64).isSome = true
    · rw [if_pos h]
      left
      exact h
    · rw [if_neg h]
      simp

/-- C10: the preview computation on a first positive prompt longer than 150
bytes slices at the fixed byte index 150; it totals to the truncated string
exactly when byte 150 is a UTF-8 character boundary, and panics (`none`)
otherwise — the boundary condition the spec leaves unstated. -/
theorem c10_preview_truncation (prompt : List Nat) (h : 150 < prompt.length) :
    (isCharBoundary prompt 150 = true →
      promptPreviewBytes prompt = some (prompt.take 150 ++ [46, 46, 46])) ∧
    (isCharBoundary prompt 150 = false → promptPreviewBytes prompt = none) := by
  constructor
  · intro hb
    simp only [promptPreviewBytes, if_pos h, hb, if_true]
  · intro hb
    simp only [promptPreviewBytes, if_pos h, hb]
    simp

set_option maxRecDepth 10000 in
/-- Witness for C10: a 151-byte prompt of 149 ASCII bytes followed by a
two-byte character panics (byte 150 is the continuation byte `0xA9`); the
all-ASCII prompt of the same length truncates successfully. -/
theorem c10_preview_truncation_witness :
    promptPreviewBytes (List.replicate 149 97 ++ [195, 169]) = none ∧
    promptPreviewBytes (List.replicate 151 97) =
      some (List.replicate 150 97 ++ [46, 46, 46]) := by
  constructor
  · exact (c10_preview_truncation (List.replicate 149 97 ++ [195, 169]) (by decide)).2 (by decide)
  · have := (c10_preview_truncation (List.replicate 151 97) (by decide)).1 (by decide)
    rw [this]
    decide

/-- C2 counterexample: with stored mtime `t0 = 0` and disk mtime
`t1 = 1/2 > t0` in the same integer second, the path `a` is *not* placed in
`to_update` (the source compares `as i64`-truncated seconds), refuting the
claim's instance `to_update = {a}` for arbitrary `t1 > t0`. -/
theorem c2_subsecond_counterexample :
    (0 : ℚ) < ⟨1, 2, by decide, by decide⟩ ∧
    deltaToUpdate [("a", (0 : ℚ)), ("b", 0)]
      [("a", (⟨1, 2, by decide, by decide⟩ : ℚ)), ("c", 0)] = [] := by
  exact ⟨by decide, by decide⟩

/-- C2 (amended): the three delta sets are characterized exactly as the
claim states and are pairwise disjoint; the concrete instance
`to_update = {a}, to_add = {c}, to_delete = {b}` holds whenever the disk
mtime of `a` advances by at least one truncated integer second (rather than
for every real-valued `t1 > t0`, see `c2_subsecond_counterexample`). -/
theorem c2_scan_delta_characterization (dbFiles diskFiles : List (String × ℚ)) :
    (∀ p, p ∈ deltaToDelete dbFiles diskFiles ↔
      p ∈ pathsOf dbFiles ∧ p ∉ pathsOf diskFiles) ∧
    (∀ p, p ∈ deltaToAdd dbFiles diskFiles ↔
      p ∈ pathsOf diskFiles ∧ p ∉ pathsOf dbFiles) ∧
    (∀ p, p ∈ deltaToUpdate dbFiles diskFiles ↔
      (p ∈ pathsOf diskFiles ∧ p ∈ pathsOf dbFiles) ∧
      ratTrunc (mtimeOf diskFiles p) > ratTrunc (mtimeOf dbFiles p)) ∧
    (∀ p, ¬ (p ∈ deltaToDelete dbFiles diskFiles ∧ p ∈ deltaToAdd dbFiles diskFiles) ∧
          ¬ (p ∈ deltaToDelete dbFiles diskFiles ∧ p ∈ deltaToUpdate dbFiles diskFiles) ∧
          ¬ (p ∈ deltaToAdd dbFiles diskFiles ∧ p ∈ deltaToUpdate dbFiles diskFiles)) ∧
    (∀ t0 t1 t2 : ℚ, ratTrunc t1 > ratTrunc t0 →
      deltaToUpdate [("a", t0), ("b", t0)] [("a", t1), ("c", t2)] = ["a"] ∧
      deltaToAdd [("a", t0), ("b", t0)] [("a", t1), ("c", t2)] = ["c"] ∧
      deltaToDelete [("a", t0), ("b", t0)] [("a", t1), ("c", t2)] = ["b"]) := by
  have hdel : ∀ p, p ∈ deltaToDelete dbFiles diskFiles ↔
      p ∈ pathsOf dbFiles ∧ p ∉ pathsOf diskFiles := by
    intro p
    simp [deltaToDelete, List.mem_filter]
  have hadd : ∀ p, p ∈ deltaToAdd dbFiles diskFiles ↔
      p ∈ pathsOf diskFiles ∧ p ∉ pathsOf dbFiles := by
    intro p
    simp [deltaToAdd, List.mem_filter]
  have hupd : ∀ p, p ∈ deltaToUpdate dbFiles diskFiles ↔
      (p ∈ pathsOf diskFiles ∧ p ∈ pathsOf dbFiles) ∧
      ratTrunc (mtimeOf diskFiles p) > ratTrunc (mtimeOf dbFiles p) := by
    intro p
    simp only [deltaToUpdate, deltaToCheck, List.mem_filter, decide_eq_true_eq,
      List.contains_eq_any_beq]
    constructor
    · rintro ⟨⟨h1, h2⟩, h3⟩
      refine ⟨⟨h1, ?_⟩, h3⟩
      simpa using h2
    · rintro ⟨⟨h1, h2⟩, h3⟩
      exact ⟨⟨h1, by simpa using h2⟩, h3⟩
  refine ⟨hdel, hadd, hupd, ?_, ?_⟩
  · intro p
    refine ⟨?_, ?_, ?_⟩
    · rintro ⟨h1, h2⟩
      rw [hdel] at h1
      rw [hadd] at h2
      tauto
    · rintro ⟨h1, h2⟩
      rw [hdel] at h1
      rw [hupd] at h2
      tauto
    · rintro ⟨h1, h2⟩
      rw [hadd] at h1
      rw [hupd] at h2
      tauto
  · intro t0 t1 t2 ht
    refine ⟨?_, ?_, ?_⟩
    · simp [deltaToUpdate, deltaToCheck, pathsOf, mtimeOf, ht]
    · simp [deltaToAdd, pathsOf]
    · simp [deltaToDelete, pathsOf]

/-- Witness for C2's amended instance: stored mtimes `10`, disk mtimes
`11.5` and `3` — the second advances, so the delta is exactly
`to_update = [a], to_add = [c], to_delete = [b]`. -/
theorem c2_scan_delta_witness :
    deltaToUpdate [("a", (10 : ℚ)), ("b", 10)]
        [("a", (⟨23, 2, by decide, by decide⟩ : ℚ)), ("c", 3)] = ["a"] ∧
    deltaToAdd [("a", (10 : ℚ)), ("b", 10)]
        [("a", (⟨23, 2, by decide, by decide⟩ : ℚ)), ("c", 3)] = ["c"] ∧
    deltaToDelete [("a", (10 : ℚ)), ("b", 10)]
        [("a", (⟨23, 2, by decide, by decide⟩ : ℚ)), ("c", 3)] = ["b"] :=
  (c2_scan_delta_characterization [("a", 10), ("b", 10)]
    [("a", ⟨23, 2, by decide, by decide⟩), ("c", 3)]).2.2.2.2 10
    ⟨23, 2, by decide, by decide⟩ 3 (by decide)

theorem take_append_len {α : Type} (l1 l2 : List α) (n : Nat) (h : l1.length = n) :
    (l1 ++ l2).take n = l1 := by
  subst h; exact List.take_left l1 l2

theorem drop_append_len {α : Type} (l1 l2 : List α) (n : Nat) (h : l1.length = n) :
    (l1 ++ l2).drop n = l2 := by
  subst h; exact List.drop_left l1 l2

theorem be32_roundtrip (n : Nat) (h : n < 4294967296) : be32dec (be32enc n) = n := by
  simp [be32enc, be32dec]
  omega

theorem extractPng_oneChunk (t : List Nat) (ht : 9 + t.length < 4294967296) :
    extractPngWorkflow (oneChunkContainer workflowBytes t) = .ok (some t) := by
  have hshape : oneChunkContainer workflowBytes t =
      pngSig ++ (be32enc (9 + t.length) ++ (tEXtTag ++ ((workflowBytes ++ 0 :: t) ++ [0, 0, 0, 0]))) := by
    simp [oneChunkContainer, workflowBytes, List.append_assoc]
  have hdata : (workflowBytes ++ 0 :: t).length = 9 + t.length := by
    simp [workflowBytes]
    omega
  have henc : (be32enc (9 + t.length)).length = 4 := by simp [be32enc]
  rw [hshape]
  unfold extractPngWorkflow
  rw [if_neg (by simp [pngSig, be32enc, tEXtTag, workflowBytes])]
  rw [take_append_len pngSig _ 8 (by decide), if_pos rfl]
  rw [drop_append_len pngSig _ 8 (by decide)]
  have hfuel : (pngSig ++ (be32enc (9 + t.length) ++ (tEXtTag ++ ((workflowBytes ++ 0 :: t) ++ [0, 0, 0, 0])))).length = (28 + t.length) + 1 := by
    simp [pngSig, be32enc, tEXtTag, workflowBytes]
    omega
  rw [hfuel]
  simp only [scanChunks]
  rw [if_neg (by simp [be32enc, tEXtTag, workflowBytes])]
  rw [take_append_len _ _ 4 henc, drop_append_len _ _ 4 henc]
  rw [be32_roundtrip _ ht]
  rw [if_neg (by simp [tEXtTag, workflowBytes])]
  rw [take_append_len tEXtTag _ 4 (by decide), drop_append_len tEXtTag _ 4 (by decide)]
  rw [if_pos rfl]
  rw [if_neg (by simp [workflowBytes]; omega)]
  rw [take_append_len _ _ _ hdata, drop_append_len _ _ _ hdata]
  have hfind : List.findIdx? (fun b => b = 0) (workflowBytes ++ 0 :: t) = some 8 := by
    simp [workflowBytes, List.findIdx?_cons]
  rw [hfind]
  show Except.ok
      (if keywordMatches (List.take 8 (workflowBytes ++ 0 :: t)) = true then
        some (List.drop 9 (workflowBytes ++ 0 :: t))
      else scanChunks (28 + t.length) (List.drop 4 [0, 0, 0, 0])) = Except.ok (some t)
  rw [take_append_len workflowBytes (0 :: t) 8 (by decide)]
  rw [if_pos (by decide)]
  have hsplit : workflowBytes ++ 0 :: t = (workflowBytes ++ [0]) ++ t := by simp
  rw [hsplit, drop_append_len (workflowBytes ++ [0]) t 9 (by decide)]

/-- C4 counterexample: extraction on the claim's container payload yields
one record whose *prompt* fields are not `None` — `ParsedWorkflow` carries
prompts as plain strings (here empty), and the stored row wraps them as
`Some ""`.  This refutes "positive_prompt, negative_prompt ... equal to
None" as stated. -/
theorem c4_prompt_none_counterexample :
    extractWorkflowMetadata (c4Workflow "3") = .ok [c4Record] ∧
    (buildMetaList (fileId "a.png") [c4Record]).map
      (fun m => (m.positive_prompt, m.negative_prompt)) = [(some "", some "")] ∧
    (some "" : Option String) ≠ none := by
  refine ⟨by decide, by decide, by decide⟩

/-- C4 (amended): for a container of the valid signature followed by a
single free-text chunk keyed `"workflow"`, the container scan returns
exactly the chunk's text (any payload below the 32-bit length bound), and
parsing the claim's one-sampler format-B graph yields exactly one record
with `cfg = 7.5`, `steps = 20`, `sampler_name = "euler"`, the four
unresolved optional fields (`model_name`, `scheduler`, `width`, `height`)
`None` — and the prompt fields empty strings rather than `None`. -/
theorem c4_container_roundtrip (t : List Nat) (ht : 9 + t.length < 4294967296) :
    extractPngWorkflow (oneChunkContainer workflowBytes t) = .ok (some t) ∧
    extractWorkflowMetadata (c4Workflow "3") = .ok [c4Record] ∧
    c4Record.cfg = some sevenPointFive ∧ c4Record.steps = some 20 ∧
    c4Record.sampler_name = some "euler" ∧ c4Record.model_name = none ∧
    c4Record.scheduler = none ∧ c4Record.width = none ∧ c4Record.height = none ∧
    c4Record.positive_prompt = "" ∧ c4Record.negative_prompt = "" :=
  ⟨extractPng_oneChunk t ht, by decide, rfl, rfl, rfl, rfl, rfl, rfl, rfl, rfl, rfl⟩

/-- Witness for C4's amended round trip at the empty payload. -/
theorem c4_container_roundtrip_witness :
    extractPngWorkflow (oneChunkContainer workflowBytes []) = .ok (some []) ∧
    extractWorkflowMetadata (c4Workflow "3") = .ok [c4Record] :=
  ⟨(c4_container_roundtrip [] (by decide)).1, (c4_container_roundtrip [] (by decide)).2.1⟩

/-- C1 (code bug): `full_sync` computes `to_delete` but its deletion loop is
an acknowledged stub (scanner.rs:386-389, "For now, just note that we'd
delete them"): syncing a store holding `gone.png` against an empty disk
leaves the record in the store even though `to_delete = [gone.png]`, while
the spec requires its removal via identity lookup (`database::delete_file`
exists but is never called here). -/
theorem c1_sync_never_deletes :
    deltaToDelete (dbC1.files.map (fun fl => (fl.path, fl.mtime))) [] = ["gone.png"] ∧
    fullSync (fun _ => none) dbC1 [] = some dbC1 ∧
    getFileById dbC1 (fileId "gone.png") = some entryC1 := by
  refine ⟨by decide, by decide, by decide⟩

/-- C8: for a PNG file, a payload that the container scan does find but that
fails JSON deserialization or parser construction (GraphUnparseable) yields
`Ok((true, []))` — `has_graph = true`, zero records, not an error — whereas
a malformed or truncated container (ContainerMalformed: scan `Ok(None)` or
`Err`) yields `Ok((false, []))`. -/
theorem c8_error_taxonomy (jsonParse : List Nat → Option Json) (f : DiskFile)
    (hext : lowerStr f.ext = "png") :
    (∀ t, extractPngWorkflow f.bytes = .ok (some t) →
      (jsonParse t = none ∨
        ∃ j e, jsonParse t = some j ∧ extractWorkflowMetadata j = .error e) →
      extractWorkflowFromFile jsonParse f = .ok (true, [])) ∧
    ((extractPngWorkflow f.bytes = .ok none ∨
        ∃ e, extractPngWorkflow f.bytes = .error e) →
      extractWorkflowFromFile jsonParse f = .ok (false, [])) := by
  constructor
  · intro t hpng hbad
    unfold extractWorkflowFromFile
    rw [if_pos hext, hpng]
    rcases hbad with hnone | ⟨j, e, hj, hmeta⟩
    · simp only [hnone]
    · simp only [hj, hmeta]
  · intro hcase
    unfold extractWorkflowFromFile
    rw [if_pos hext]
    rcases hcase with hnone | ⟨e, herr⟩
    · simp only [hnone]
    · simp only [herr]

/-- Witness for C8: a chunk payload `[123]` (lone `{`) with a failing JSON
oracle is marked `has_graph = true` with zero records; a 2-byte truncated
file is `has_graph = false`. -/
theorem c8_error_taxonomy_witness :
    extractWorkflowFromFile (fun _ => none)
      { path := "x.png", name := "x.png", ext := "png", mtime := 0,
        bytes := oneChunkContainer workflowBytes [123], probedDims := none } =
      .ok (true, []) ∧
    extractWorkflowFromFile (fun _ => none)
      { path := "y.png", name := "y.png", ext := "png", mtime := 0,
        bytes := [137, 80], probedDims := none } = .ok (false, []) :=
  ⟨(c8_error_taxonomy (fun _ => none) _ (by decide)).1 [123] (by decide) (Or.inl rfl),
   (c8_error_taxonomy (fun _ => none) _ (by decide)).2
     (Or.inr ⟨"Failed to read PNG signature", by decide⟩)⟩

theorem processFile_id_fav (jsonParse : List Nat → Option Json) (f : DiskFile)
    (entry0 : FileEntry) (ws : List ParsedWorkflow)
    (h : processFile jsonParse f = some (.ok (entry0, ws))) :
    entry0.id = fileId f.path ∧ entry0.is_favorite = false := by
  unfold processFile at h
  revert h
  cases hx : extractWorkflowFromFile jsonParse f with
  | error e => intro h; simp at h
  | ok pair =>
    obtain ⟨hw, wm⟩ := pair
    cases wm with
    | nil =>
      intro h
      simp only [Option.some.injEq, Except.ok.injEq, Prod.mk.injEq] at h
      obtain ⟨h1, h2⟩ := h
      rw [← h1]
      exact ⟨rfl, rfl⟩
    | cons first rest =>
      cases hp : promptPreviewBytes (strBytes first.positive_prompt) with
      | none => intro h; simp [hp] at h
      | some preview =>
        intro h
        simp only [hp, Option.some.injEq, Except.ok.injEq, Prod.mk.injEq] at h
        obtain ⟨h1, h2⟩ := h
        rw [← h1]
        exact ⟨rfl, rfl⟩

theorem insertAll_files (ms : List WorkflowMetadata) (db : GalleryDB) :
    (ms.foldl insertWorkflowMetadataRow db).files = db.files := by
  induction ms generalizing db with
  | nil => rfl
  | cons m ms ih => simp [List.foldl_cons, ih, insertWorkflowMetadataRow]

/-- C3: a sync task that processes a file whose identity already has a
record in the store writes a record whose `is_favorite` equals the prior
record's; when no prior record exists the written flag is `false` — the
only two values ingestion ever produces. -/
theorem c3_favorite_preserved (jsonParse : List Nat → Option Json) (db : GalleryDB)
    (f : DiskFile) (dbOut : GalleryDB) (entry0 : FileEntry) (ws : List ParsedWorkflow)
    (hproc : processFile jsonParse f = some (.ok (entry0, ws)))
    (hout : syncProcessPath jsonParse db f = some dbOut) :
    ∃ written, getFileById dbOut (fileId f.path) = some written ∧
      (∀ prior, getFileById db (fileId f.path) = some prior →
        written.is_favorite = prior.is_favorite) ∧
      (getFileById db (fileId f.path) = none → written.is_favorite = false) := by
  obtain ⟨hid, hfav⟩ := processFile_id_fav jsonParse f entry0 ws hproc
  simp only [syncProcessPath, hproc] at hout
  rw [← hid]
  cases hprior : getFileById db entry0.id with
  | some existing =>
    simp only [hprior] at hout
    obtain rfl := Option.some.inj hout
    refine ⟨{ entry0 with is_favorite := existing.is_favorite }, ?_, ?_, ?_⟩
    · rw [getFileById, insertAll_files]
      simp only [upsertFile]
      rw [List.find?_cons_of_pos _ (by simp [hid])]
    · intro prior hp
      obtain rfl := Option.some.inj hp
      rfl
    · intro hnone
      exact Option.noConfusion hnone
  | none =>
    simp only [hprior] at hout
    obtain rfl := Option.some.inj hout
    refine ⟨entry0, ?_, ?_, ?_⟩
    · rw [getFileById, insertAll_files]
      simp only [upsertFile]
      rw [List.find?_cons_of_pos _ (by simp [hid])]
    · intro prior hp
      exact Option.noConfusion hp
    · intro _
      exact hfav

/-- Witness for C3: re-ingesting `fC` (newer mtime) over the favorited
prior record `priorEntryC` writes a record with `is_favorite = true`. -/
theorem c3_favorite_preserved_witness :
    ∃ written, getFileById dbOutC (fileId "img.png") = some written ∧
      written.is_favorite = true := by
  obtain ⟨written, hw, hcopy, _⟩ :=
    c3_favorite_preserved jpC dbC fC dbOutC procEntryC [c4Record] (by decide) (by rfl)
  refine ⟨written, hw, ?_⟩
  rw [hcopy priorEntryC (by decide)]
  rfl

theorem upsertFile_no_meta (db : GalleryDB) (e : FileEntry)
    (hwf : ∀ m ∈ db.meta, ∃ fl ∈ db.files, fl.id = m.file_id) :
    ∀ m ∈ (upsertFile db e).meta, m.file_id ≠ e.id := by
  intro m hm heq
  simp only [upsertFile, List.mem_filter, decide_eq_true_eq] at hm
  obtain ⟨hmem, hnotrem⟩ := hm
  obtain ⟨fl, hfl, hid⟩ := hwf m hmem
  apply hnotrem
  have hconf : fl ∈ db.files.filter (fun fl2 => fl2.id = e.id ∨ fl2.path = e.path) := by
    rw [List.mem_filter]
    refine ⟨hfl, by simp [hid, heq]⟩
  have hmap : m.file_id ∈
      (db.files.filter (fun fl2 => fl2.id = e.id ∨ fl2.path = e.path)).map
        (fun fl2 => fl2.id) :=
    List.mem_map.mpr ⟨fl, hconf, hid⟩
  simpa using hmap

theorem buildMetaList_file_id (fid : String) (ws : List ParsedWorkflow) :
    ∀ m ∈ buildMetaList fid ws, m.file_id = fid := by
  intro m hm
  simp only [buildMetaList, List.mem_map] at hm
  obtain ⟨iw, _, rfl⟩ := hm
  rfl

theorem buildMetaList_idx_nodup (fid : String) (ws : List ParsedWorkflow) :
    ((buildMetaList fid ws).map (fun m => m.sampler_index)).Nodup := by
  have hrw : (buildMetaList fid ws).map (fun m => m.sampler_index) =
      (ws.enum.map Prod.fst).map (fun i : Nat => (i : Int)) := by
    rw [buildMetaList, List.map_map, List.map_map]
    rfl
  rw [hrw, List.enum_map_fst]
  exact (List.nodup_range _).map (fun a b h => Int.ofNat.inj h)

theorem insertAll_filter_acc (fid : String) :
    ∀ (ms : List WorkflowMetadata) (db : GalleryDB),
      (∀ m ∈ ms, m.file_id = fid) →
      ((ms.map (fun m => m.sampler_index)).Nodup) →
      (∀ m ∈ ms, ∀ x ∈ db.meta, x.file_id = fid → x.sampler_index ≠ m.sampler_index) →
      ((ms.foldl insertWorkflowMetadataRow db).meta).filter (fun m => m.file_id = fid) =
        ms.reverse ++ db.meta.filter (fun m => m.file_id = fid) := by
  intro ms
  induction ms with
  | nil => intro db _ _ _; simp
  | cons m ms ih =>
    intro db hall hnodup hdisj
    rw [List.foldl_cons]
    rw [ih (insertWorkflowMetadataRow db m)
      (fun a ha => hall a (List.mem_cons_of_mem m ha))
      (by simpa using hnodup.of_cons)
      ?hdisj]
    case hdisj =>
      intro a ha x hx hxid
      simp only [insertWorkflowMetadataRow, List.mem_cons, List.mem_filter,
        decide_eq_true_eq] at hx
      rcases hx with hxm | ⟨hx1, _⟩
      · intro hcontra
        have hma : m.sampler_index ∈ ms.map (fun m2 => m2.sampler_index) := by
          refine List.mem_map.mpr ⟨a, ha, ?_⟩
          rw [← hcontra, hxm]
        simp only [List.map_cons, List.nodup_cons] at hnodup
        exact hnodup.1 hma
      · exact hdisj a (List.mem_cons_of_mem m ha) x hx1 hxid
    have hm_fid : m.file_id = fid := hall m (List.mem_cons_self m ms)
    have hfilter2 : (db.meta.filter (fun x =>
        ¬ (x.file_id = m.file_id ∧ x.sampler_index = m.sampler_index))).filter
          (fun x => x.file_id = fid) = db.meta.filter (fun x => x.file_id = fid) := by
      rw [List.filter_filter]
      apply List.filter_congr
      intro x hx
      by_cases hid : x.file_id = fid
      · have hne : x.sampler_index ≠ m.sampler_index :=
          hdisj m (List.mem_cons_self m ms) x hx hid
        simp [hid, hm_fid, hne]
      · simp [hid]
    simp only [insertWorkflowMetadataRow]
    rw [List.filter_cons_of_pos (by simp [hm_fid])]
    rw [hfilter2, List.reverse_cons, List.append_assoc]
    simp

/-- C6: after a sync task processes a file (against a store satisfying the
schema's foreign-key integrity), the metadata rows carrying the file's id
are exactly the rows built from that run's extraction — the upsert's REPLACE
cascade deletes every earlier row first, so none survives, in particular
when the new extraction yields fewer records than the previous one. -/
theorem c6_parameters_replaced (jsonParse : List Nat → Option Json) (db : GalleryDB)
    (f : DiskFile) (dbOut : GalleryDB) (entry0 : FileEntry) (ws : List ParsedWorkflow)
    (hwf : ∀ m ∈ db.meta, ∃ fl ∈ db.files, fl.id = m.file_id)
    (hproc : processFile jsonParse f = some (.ok (entry0, ws)))
    (hout : syncProcessPath jsonParse db f = some dbOut) :
    dbOut.meta.filter (fun m => m.file_id = fileId f.path) =
      (buildMetaList (fileId f.path) ws).reverse := by
  obtain ⟨hid, _⟩ := processFile_id_fav jsonParse f entry0 ws hproc
  simp only [syncProcessPath, hproc] at hout
  rw [← hid]
  cases hprior : getFileById db entry0.id with
  | some existing =>
    simp only [hprior] at hout
    obtain rfl := Option.some.inj hout
    rw [insertAll_filter_acc entry0.id (buildMetaList entry0.id ws)
      (upsertFile db { entry0 with is_favorite := existing.is_favorite })
      (buildMetaList_file_id entry0.id ws) (buildMetaList_idx_nodup entry0.id ws)
      (fun m _ x hx hxid => absurd hxid
        (upsertFile_no_meta db { entry0 with is_favorite := existing.is_favorite } hwf x hx))]
    rw [List.filter_eq_nil_iff.mpr (fun x hx => by
      simpa using
        upsertFile_no_meta db { entry0 with is_favorite := existing.is_favorite } hwf x hx)]
    simp
  | none =>
    simp only [hprior] at hout
    obtain rfl := Option.some.inj hout
    rw [insertAll_filter_acc entry0.id (buildMetaList entry0.id ws) (upsertFile db entry0)
      (buildMetaList_file_id entry0.id ws) (buildMetaList_idx_nodup entry0.id ws)
      (fun m _ x hx hxid => absurd hxid (upsertFile_no_meta db entry0 hwf x hx))]
    rw [List.filter_eq_nil_iff.mpr (fun x hx => by
      simpa using upsertFile_no_meta db entry0 hwf x hx)]
    simp

/-- Witness for C6: re-ingesting `fC` (whose new extraction has one record)
over a store holding two metadata rows for the same file id leaves exactly
the one new row — neither old row survives. -/
theorem c6_parameters_replaced_witness :
    dbOutC.meta.filter (fun m => m.file_id = fileId "img.png") =
      (buildMetaList (fileId "img.png") [c4Record]).reverse ∧
    dbC.meta.length = 2 ∧ dbOutC.meta.length = 1 :=
  ⟨c6_parameters_replaced jpC dbC fC dbOutC procEntryC [c4Record]
    (by decide) (by decide) (by rfl), by decide, by decide⟩

theorem find?_map_key {α β γ : Type} [DecidableEq β] (l : List α) (key : α → β)
    (F : α → γ) (s : β) :
    ((l.map (fun a => (key a, F a))).find? (fun kv => kv.1 = s)) =
      (l.find? (fun a => key a = s)).map (fun a => (key a, F a)) := by
  induction l with
  | nil => rfl
  | cons a l ih =>
    simp only [List.map_cons, List.find?_cons]
    by_cases h : key a = s
    · simp [h]
    · simpa [h] using ih

theorem hmGet_map_nodes (l : List LNode) (F : LNode → Json) (s : String) :
    hmGet (l.map (fun n => (idStr n, F n))) s =
      (l.find? (fun n => idStr n = s)).map F := by
  rw [hmGet, find?_map_key]
  cases l.find? (fun n => idStr n = s) <;> rfl

theorem hmInsert_append (acc : List (String × Json)) (k : String) (v : Json)
    (h : ∀ kv ∈ acc, kv.1 ≠ k) : hmInsert acc k v = acc ++ [(k, v)] := by
  induction acc with
  | nil => rfl
  | cons kv0 acc ih =>
    simp only [hmInsert]
    rw [if_neg (h kv0 (List.mem_cons_self kv0 acc))]
    rw [ih (fun kv hkv => h kv (List.mem_cons_of_mem kv0 hkv))]
    rfl

theorem lmInsert_append (acc : List (Int × String × Int)) (k : Int) (v : String × Int)
    (h : ∀ kv ∈ acc, kv.1 ≠ k) : lmInsert acc k v = acc ++ [(k, v)] := by
  induction acc with
  | nil => rfl
  | cons kv0 acc ih =>
    simp only [lmInsert]
    rw [if_neg (h kv0 (List.mem_cons_self kv0 acc))]
    rw [ih (fun kv hkv => h kv (List.mem_cons_of_mem kv0 hkv))]
    rfl

theorem find?_key_of_mem {α β : Type} [DecidableEq β] (l : List α) (key : α → β)
    (a : α) (hnd : (l.map key).Nodup) (ha : a ∈ l) :
    l.find? (fun x => key x = key a) = some a := by
  induction l with
  | nil => exact absurd ha (List.not_mem_nil a)
  | cons b l ih =>
    simp only [List.map_cons, List.nodup_cons] at hnd
    rcases List.mem_cons.mp ha with rfl | hmem
    · simp [List.find?_cons]
    · rw [List.find?_cons]
      have hne : key b ≠ key a := by
        intro hcontra
        exact hnd.1 (hcontra ▸ List.mem_map.mpr ⟨a, hmem, rfl⟩)
      simp only [hne, decide_eq_true_eq]
      simpa [hne] using ih hnd.2 hmem

theorem mem_foldr_edges (l : List LNode) (n : LNode) (e : LEdge)
    (hn : n ∈ l) (he : e ∈ n.edges) :
    e ∈ l.foldr (fun n2 acc => n2.edges ++ acc) [] := by
  induction l with
  | nil => exact absurd hn (List.not_mem_nil n)
  | cons m l ih =>
    simp only [List.foldr_cons, List.mem_append]
    rcases List.mem_cons.mp hn with rfl | hmem
    · exact Or.inl he
    · exact Or.inr (ih hmem)

theorem mem_allEdges (g : LGraph) (n : LNode) (e : LEdge)
    (hn : n ∈ g.nodes) (he : e ∈ n.edges) : e ∈ allEdges g :=
  mem_foldr_edges g.nodes n e hn he

theorem lmGet_allEdges (g : LGraph) (e : LEdge)
    (hnd : ((allEdges g).map (fun e2 => e2.linkId)).Nodup) (he : e ∈ allEdges g) :
    lmGet (ALinks g) e.linkId = some (toString e.src, e.slot) := by
  rw [ALinks, lmGet, find?_map_key (allEdges g) (fun e2 => e2.linkId)
    (fun e2 => (toString e2.src, e2.slot)) e.linkId]
  rw [find?_key_of_mem (allEdges g) (fun e2 => e2.linkId) e hnd he]
  rfl


theorem buildNodesUI_ok : ∀ (l : List LNode) (acc : List (String × Json)),
    (∀ n ∈ l, ∀ kv ∈ acc, kv.1 ≠ idStr n) → (l.map idStr).Nodup →
    buildNodesUI (l.map encANode) acc =
      .ok (acc ++ l.map (fun n => (idStr n, encANode n))) := by
  intro l
  induction l with
  | nil =>
    intro acc _ _
    simp [buildNodesUI]
  | cons n l ih =>
    intro acc hfresh hnd
    simp only [List.map_cons, List.nodup_cons] at hnd
    show buildNodesUI (List.map encANode l) (hmInsert acc (toString n.id) (encANode n)) =
      Except.ok (acc ++ (idStr n, encANode n) :: List.map (fun n2 => (idStr n2, encANode n2)) l)
    rw [hmInsert_append acc (toString n.id) (encANode n)
      (fun kv hkv => hfresh n (List.mem_cons_self n l) kv hkv)]
    rw [ih (acc ++ [(toString n.id, encANode n)]) ?hfresh2 hnd.2]
    · simp [idStr, List.append_assoc]
    case hfresh2 =>
      intro n2 hn2 kv hkv
      rcases List.mem_append.mp hkv with h | h
      · exact hfresh n2 (List.mem_cons_of_mem n hn2) kv h
      · have hkv1 : kv.1 = idStr n := by
          simp only [List.mem_singleton] at h
          rw [h]
          rfl
        rw [hkv1]
        intro hcontra
        exact hnd.1 (hcontra ▸ List.mem_map.mpr ⟨n2, hn2, rfl⟩)

theorem buildNodesAPI_eq : ∀ (l : List LNode) (acc : List (String × Json)),
    (∀ n ∈ l, ∀ kv ∈ acc, kv.1 ≠ idStr n) → (l.map idStr).Nodup →
    buildNodesAPI (l.map (fun n => (idStr n, encBNodeBody n))) acc =
      acc ++ l.map (fun n => (idStr n, encBNode n)) := by
  intro l
  induction l with
  | nil =>
    intro acc _ _
    simp [buildNodesAPI]
  | cons n l ih =>
    intro acc hfresh hnd
    simp only [List.map_cons, List.nodup_cons] at hnd
    show buildNodesAPI (List.map (fun n2 => (idStr n2, encBNodeBody n2)) l)
        (hmInsert acc (idStr n) (encBNode n)) =
      acc ++ (idStr n, encBNode n) :: List.map (fun n2 => (idStr n2, encBNode n2)) l
    rw [hmInsert_append acc (idStr n) (encBNode n)
      (fun kv hkv => hfresh n (List.mem_cons_self n l) kv hkv)]
    rw [ih (acc ++ [(idStr n, encBNode n)]) ?hfresh2 hnd.2]
    · simp [List.append_assoc]
    case hfresh2 =>
      intro n2 hn2 kv hkv
      rcases List.mem_append.mp hkv with h | h
      · exact hfresh n2 (List.mem_cons_of_mem n hn2) kv h
      · have hkv1 : kv.1 = idStr n := by
          simp only [List.mem_singleton] at h
          rw [h]
        rw [hkv1]
        intro hcontra
        exact hnd.1 (hcontra ▸ List.mem_map.mpr ⟨n2, hn2, rfl⟩)

theorem linkFold_eq : ∀ (l : List LEdge) (acc : List (Int × String × Int)),
    (∀ e ∈ l, ∀ kv ∈ acc, kv.1 ≠ e.linkId) → (l.map (fun e => e.linkId)).Nodup →
    List.foldl (fun m link =>
      match link.asArr with
      | none => m
      | some la =>
        if la.length ≥ 3 then
          match (la.get? 0).bind Json.asI64, (la.get? 1).bind Json.asI64,
                (la.get? 2).bind Json.asI64 with
          | some linkId, some sourceId, some sourceSlot =>
              lmInsert m linkId (toString sourceId, sourceSlot)
          | _, _, _ => m
        else m) acc
      (l.map (fun e => Json.jarr [Json.jint e.linkId, Json.jint e.src, Json.jint e.slot])) =
    acc ++ l.map (fun e => (e.linkId, (toString e.src, e.slot))) := by
  intro l
  induction l with
  | nil =>
    intro acc _ _
    simp
  | cons e l ih =>
    intro acc hfresh hnd
    simp only [List.map_cons, List.nodup_cons] at hnd
    rw [List.map_cons, List.foldl_cons]
    show List.foldl _ (lmInsert acc e.linkId (toString e.src, e.slot))
      (l.map (fun e2 => Json.jarr [Json.jint e2.linkId, Json.jint e2.src, Json.jint e2.slot])) = _
    rw [lmInsert_append acc e.linkId (toString e.src, e.slot)
      (fun kv hkv => hfresh e (List.mem_cons_self e l) kv hkv)]
    rw [ih (acc ++ [(e.linkId, (toString e.src, e.slot))]) ?hfresh2 hnd.2]
    · simp [List.append_assoc]
    case hfresh2 =>
      intro e2 he2 kv hkv
      rcases List.mem_append.mp hkv with h | h
      · exact hfresh e2 (List.mem_cons_of_mem e he2) kv h
      · have hkv1 : kv.1 = e.linkId := by
          simp only [List.mem_singleton] at h
          rw [h]
        rw [hkv1]
        intro hcontra
        exact hnd.1 (hcontra ▸ List.mem_map.mpr ⟨e2, he2, rfl⟩)

theorem buildLinkMap_eq (g : LGraph)
    (hnd : ((allEdges g).map (fun e => e.linkId)).Nodup) :
    buildLinkMap (some (Json.jarr ((allEdges g).map (fun e =>
      Json.jarr [Json.jint e.linkId, Json.jint e.src, Json.jint e.slot])))) = ALinks g := by
  rw [ALinks]
  have h := linkFold_eq (allEdges g) []
    (fun e _ kv hkv => absurd hkv (List.not_mem_nil kv)) hnd
  simp only [List.nil_append] at h
  exact h

theorem parserA_ok (g : LGraph) (hwf : LGraph.WF g) :
    parserNew (encodeA g) = .ok (parserA g) := by
  obtain ⟨hnd, hkey, hlnd, hedge⟩ := hwf
  show (buildNodesUI (g.nodes.map encANode) []).map (fun nodesById =>
      { isUI := true, nodesById := nodesById,
        linksMap := buildLinkMap (some (Json.jarr ((allEdges g).map (fun e =>
          Json.jarr [Json.jint e.linkId, Json.jint e.src, Json.jint e.slot])))) }) =
    Except.ok (parserA g)
  rw [buildNodesUI_ok g.nodes [] (fun n _ kv hkv => absurd hkv (List.not_mem_nil kv)) hnd]
  rw [Except.map, buildLinkMap_eq g hlnd]
  simp [parserA, ANodes]

theorem parserB_ok (g : LGraph) (hwf : LGraph.WF g) :
    parserNew (encodeB g) = .ok (parserB g) := by
  obtain ⟨hnd, hkey, _, _⟩ := hwf
  have hfind : (g.nodes.map (fun n => (idStr n, encBNodeBody n))).find?
      (fun kv => kv.1 = "nodes") = none := by
    rw [List.find?_eq_none]
    intro kv hkv
    obtain ⟨n, hn, rfl⟩ := List.mem_map.mp hkv
    simpa using hkey n hn
  simp only [parserNew, encodeB, Json.asObj]
  rw [hfind]
  simp only [Option.isSome_none, Bool.false_eq_true, if_false]
  rw [buildNodesAPI_eq g.nodes [] (fun n _ kv hkv => absurd hkv (List.not_mem_nil kv)) hnd]
  simp [parserB, BNodes]

theorem getNodeType_A (g : LGraph) (n : LNode) :
    getNodeType (parserA g) (encANode n) = some n.typ := rfl

theorem getNodeType_B (g : LGraph) (n : LNode) :
    getNodeType (parserB g) (encBNode n) = some n.typ := rfl

theorem nodeIdString_A (n : LNode) : nodeIdString (encANode n) = some (idStr n) := rfl

theorem nodeIdString_B (n : LNode) : nodeIdString (encBNode n) = some (idStr n) := rfl

theorem objGet_scalar (l : List (String × LVal)) (p : String) :
    objGet (l.map (fun kv => (kv.1, LVal.toJson kv.2))) p =
      ((l.find? (fun kv => kv.1 = p)).map (fun kv => kv.2)).map LVal.toJson := by
  induction l with
  | nil => rfl
  | cons kv l ih =>
    simp only [List.map_cons, objGet, List.find?_cons]
    by_cases h : kv.1 = p
    · simp [h]
    · simpa [h, objGet] using ih

theorem objGet_edges (l : List LEdge) (p : String) :
    objGet (l.map (fun e =>
        (e.name, Json.jarr [Json.jstr (toString e.src), Json.jint e.slot]))) p =
      (l.find? (fun e => e.name = p)).map
        (fun e => Json.jarr [Json.jstr (toString e.src), Json.jint e.slot]) := by
  induction l with
  | nil => rfl
  | cons e l ih =>
    simp only [List.map_cons, objGet, List.find?_cons]
    by_cases h : e.name = p
    · simp [h]
    · simpa [h, objGet] using ih

theorem objGet_append (l1 l2 : List (String × Json)) (p : String) :
    objGet (l1 ++ l2) p = (objGet l1 p).orElse (fun _ => objGet l2 p) := by
  induction l1 with
  | nil => simp [objGet]
  | cons kv l1 ih =>
    simp only [List.cons_append, objGet, List.find?_cons]
    by_cases h : kv.1 = p
    · simp [h]
    · simpa [h, objGet] using ih

theorem getWidgetValue_A (g : LGraph) (n : LNode) (p : String) :
    getWidgetValue (parserA g) (encANode n) p = (paramLookup n p).map LVal.toJson := by
  show (match objGet (n.params.map (fun kv => (kv.1, LVal.toJson kv.2))) p with
    | some v => some v
    | none => none) = (paramLookup n p).map LVal.toJson
  rw [objGet_scalar, paramLookup]
  cases n.params.find? (fun kv => kv.1 = p) <;> rfl

theorem getWidgetValue_B (g : LGraph) (n : LNode) (p : String) :
    getWidgetValue (parserB g) (encBNode n) p =
      ((paramLookup n p).map LVal.toJson).orElse
        (fun _ => (edgeLookup n p).map
          (fun e => Json.jarr [Json.jstr (toString e.src), Json.jint e.slot])) := by
  show objGet (encBInputs n) p = _
  rw [encBInputs, objGet_append, objGet_scalar, objGet_edges, paramLookup, edgeLookup]

theorem edgeLookup_of_reserved (g : LGraph) (n : LNode) (p : String)
    (hn : n ∈ g.nodes)
    (hedge : ∀ n2 ∈ g.nodes, ∀ e ∈ n2.edges,
      ¬ e.name ∈ reservedWidgetNames ∧ ¬ e.name ∈ n2.params.map Prod.fst)
    (hp : p ∈ reservedWidgetNames) : edgeLookup n p = none := by
  rw [edgeLookup, List.find?_eq_none]
  intro e he
  simp only [decide_eq_true_eq]
  intro hcontra
  exact (hedge n hn e he).1 (hcontra ▸ hp)

theorem widget_AB_eq (g : LGraph) (n : LNode) (p : String)
    (hne : edgeLookup n p = none) :
    getWidgetValue (parserB g) (encBNode n) p = getWidgetValue (parserA g) (encANode n) p := by
  rw [getWidgetValue_A, getWidgetValue_B, hne]
  cases (paramLookup n p).map LVal.toJson <;> rfl

theorem scanA_eq (g : LGraph) (nm : String)
    (hnd : ((allEdges g).map (fun e => e.linkId)).Nodup) :
    ∀ (es : List LEdge), (∀ e ∈ es, e ∈ allEdges g) →
    scanInputs (parserA g) nm (es.map (fun e =>
      Json.jobj [("name", Json.jstr e.name), ("link", Json.jint e.linkId)])) =
      (es.find? (fun e => e.name = nm)).bind
        (fun e => hmGet (ANodes g) (toString e.src)) := by
  intro es
  induction es with
  | nil => intro _; rfl
  | cons e es ih =>
    intro hsub
    show (if e.name = nm then
        match lmGet (ALinks g) e.linkId with
        | none => scanInputs (parserA g) nm (es.map (fun e2 =>
            Json.jobj [("name", Json.jstr e2.name), ("link", Json.jint e2.linkId)]))
        | some (sourceId, _) => hmGet (ANodes g) sourceId
      else scanInputs (parserA g) nm (es.map (fun e2 =>
        Json.jobj [("name", Json.jstr e2.name), ("link", Json.jint e2.linkId)]))) = _
    by_cases h : e.name = nm
    · rw [if_pos h]
      rw [lmGet_allEdges g e hnd (hsub e (List.mem_cons_self e es))]
      rw [List.find?_cons]
      simp [h]
    · rw [if_neg h]
      rw [ih (fun e2 he2 => hsub e2 (List.mem_cons_of_mem e he2))]
      rw [List.find?_cons]
      simp [h]

theorem getInputSourceNode_A (g : LGraph) (n : LNode) (nm : String)
    (hn : n ∈ g.nodes) (hnd : ((allEdges g).map (fun e => e.linkId)).Nodup) :
    getInputSourceNode (parserA g) (encANode n) nm =
      (edgeLookup n nm).bind (fun e => (findNode g (toString e.src)).map encANode) := by
  show scanInputs (parserA g) nm (n.edges.map (fun e =>
    Json.jobj [("name", Json.jstr e.name), ("link", Json.jint e.linkId)])) = _
  rw [scanA_eq g nm hnd n.edges (fun e he => mem_allEdges g n e hn he), edgeLookup]
  cases n.edges.find? (fun e => e.name = nm) with
  | none => rfl
  | some e =>
    show hmGet (ANodes g) (toString e.src) = (findNode g (toString e.src)).map encANode
    rw [ANodes, hmGet_map_nodes, findNode]

theorem getInputSourceNode_B (g : LGraph) (n : LNode) (nm : String)
    (hn : n ∈ g.nodes)
    (hedge : ∀ n2 ∈ g.nodes, ∀ e ∈ n2.edges,
      ¬ e.name ∈ reservedWidgetNames ∧ ¬ e.name ∈ n2.params.map Prod.fst) :
    getInputSourceNode (parserB g) (encBNode n) nm =
      (edgeLookup n nm).bind (fun e => (findNode g (toString e.src)).map encBNode) := by
  show (match (objGet (encBInputs n) nm).bind Json.asArr with
    | none => none
    | some inputRef =>
      if inputRef.length ≥ 1 then
        match (inputRef.get? 0).bind Json.asStr with
        | none => none
        | some sourceId => hmGet (parserB g).nodesById sourceId
      else none) = _
  rw [encBInputs, objGet_append, objGet_scalar, objGet_edges]
  cases hp : (n.params.find? (fun kv => kv.1 = nm)) with
  | some kv0 =>
    obtain ⟨k0, v0⟩ := kv0
    have hnoedge : edgeLookup n nm = none := by
      rw [edgeLookup, List.find?_eq_none]
      intro e he
      simp only [decide_eq_true_eq]
      intro hcontra
      have hmem : nm ∈ n.params.map Prod.fst := by
        have h1 := List.find?_some hp
        simp only [decide_eq_true_eq] at h1
        exact h1 ▸ List.mem_map.mpr ⟨(k0, v0), List.mem_of_find?_eq_some hp, rfl⟩
      exact (hedge n hn e he).2 (hcontra ▸ hmem)
    rw [hnoedge]
    cases v0 <;> rfl
  | none =>
    rw [edgeLookup]
    cases he2 : n.edges.find? (fun e => e.name = nm) with
    | none => rfl
    | some e =>
      show hmGet (BNodes g) (toString e.src) = (findNode g (toString e.src)).map encBNode
      rw [BNodes, hmGet_map_nodes, findNode]

theorem findNode_idStr (g : LGraph) (s : String) (n : LNode) (h : findNode g s = some n) :
    idStr n = s := by
  have h2 := List.find?_some h
  simpa using h2

theorem findNode_mem (g : LGraph) (s : String) (n : LNode) (h : findNode g s = some n) :
    n ∈ g.nodes :=
  List.mem_of_find?_eq_some h

theorem encANode_get_id (m : LNode) : (encANode m).get "id" = some (Json.jint m.id) := rfl

theorem encBNode_get_id (m : LNode) :
    (encBNode m).get "id" = some (Json.jstr (idStr m)) := rfl

theorem trav_A (g : LGraph) (hwf : LGraph.WF g) (stop : List String) (nm : String) :
    ∀ (hops : Nat) (s : String),
      findSourceNode (parserA g) stop nm hops s = (ltrav g stop nm hops s).map encANode := by
  obtain ⟨hnd, hkey, hlnd, hedge⟩ := hwf
  intro hops
  induction hops with
  | zero => intro s; rfl
  | succ h ih =>
    intro s
    simp only [findSourceNode, ltrav]
    have hget : hmGet (parserA g).nodesById s = (findNode g s).map encANode := by
      rw [show (parserA g).nodesById = ANodes g from rfl, ANodes, hmGet_map_nodes, findNode]
    rw [hget]
    cases hfn : findNode g s with
    | none => rfl
    | some n =>
      simp only [Option.map_some', getNodeType_A]
      by_cases h1 : stop.contains n.typ = true
      · rw [if_pos h1, if_pos h1]
        rfl
      · rw [if_neg h1, if_neg h1]
        by_cases h2 : n.typ = "Primitive" ∨ n.typ = "PrimitiveNode"
        · rw [if_pos h2, if_pos h2]
          exact ih s
        · rw [if_neg h2, if_neg h2]
          rw [getInputSourceNode_A g n nm (findNode_mem g s n hfn) hlnd]
          cases hel : edgeLookup n nm with
          | none => rfl
          | some e =>
            simp only [Option.some_bind]
            cases hfn2 : findNode g (toString e.src) with
            | none => rfl
            | some m =>
              simp only [Option.map_some', Option.some_bind, encANode_get_id, Json.asStr,
                Json.asI64]
              rw [ih (toString m.id)]
              have hms : toString m.id = toString e.src := findNode_idStr g _ m hfn2
              rw [hms]

theorem trav_B (g : LGraph) (hwf : LGraph.WF g) (stop : List String) (nm : String) :
    ∀ (hops : Nat) (s : String),
      findSourceNode (parserB g) stop nm hops s = (ltrav g stop nm hops s).map encBNode := by
  obtain ⟨hnd, hkey, hlnd, hedge⟩ := hwf
  intro hops
  induction hops with
  | zero => intro s; rfl
  | succ h ih =>
    intro s
    simp only [findSourceNode, ltrav]
    have hget : hmGet (parserB g).nodesById s = (findNode g s).map encBNode := by
      rw [show (parserB g).nodesById = BNodes g from rfl, BNodes, hmGet_map_nodes, findNode]
    rw [hget]
    cases hfn : findNode g s with
    | none => rfl
    | some n =>
      simp only [Option.map_some', getNodeType_B]
      by_cases h1 : stop.contains n.typ = true
      · rw [if_pos h1, if_pos h1]
        rfl
      · rw [if_neg h1, if_neg h1]
        by_cases h2 : n.typ = "Primitive" ∨ n.typ = "PrimitiveNode"
        · rw [if_pos h2, if_pos h2]
          exact ih s
        · rw [if_neg h2, if_neg h2]
          rw [getInputSourceNode_B g n nm (findNode_mem g s n hfn) hedge]
          cases hel : edgeLookup n nm with
          | none => rfl
          | some e =>
            simp only [Option.some_bind]
            cases hfn2 : findNode g (toString e.src) with
            | none => rfl
            | some m =>
              simp only [Option.map_some', Option.some_bind, encBNode_get_id, Json.asStr,
                Json.asI64]
              rw [ih (idStr m)]
              have hms : idStr m = toString e.src := findNode_idStr g _ m hfn2
              rw [hms]

theorem ltrav_mem (g : LGraph) (stop : List String) (nm : String) :
    ∀ (hops : Nat) (s : String) (m : LNode), ltrav g stop nm hops s = some m →
      m ∈ g.nodes := by
  intro hops
  induction hops with
  | zero => intro s m hm; simp [ltrav] at hm
  | succ h ih =>
    intro s m hm
    simp only [ltrav] at hm
    revert hm
    cases hfn : findNode g s with
    | none => intro hm; exact Option.noConfusion hm
    | some n =>
      by_cases h1 : stop.contains n.typ = true
      · simp only [h1, if_true]
        intro hm
        obtain rfl := Option.some.inj hm
        exact findNode_mem g s _ hfn
      · simp only [h1, Bool.false_eq_true, if_false]
        by_cases h2 : n.typ = "Primitive" ∨ n.typ = "PrimitiveNode"
        · rw [if_pos h2]
          exact ih s m
        · rw [if_neg h2]
          cases hel : edgeLookup n nm with
          | none =>
            intro hm
            exact Option.noConfusion (show (none : Option LNode) = some m from hm)
          | some e =>
            intro hm
            have hm2 : (match findNode g (toString e.src) with
              | none => (none : Option LNode)
              | some _ => ltrav g stop nm h (toString e.src)) = some m := hm
            revert hm2
            cases hfn2 : findNode g (toString e.src) with
            | none =>
              intro hm2
              exact Option.noConfusion (show (none : Option LNode) = some m from hm2)
            | some m2 => exact ih (toString e.src) m

theorem widget_AB_reserved (g : LGraph) (hwf : LGraph.WF g) (m : LNode) (hm : m ∈ g.nodes)
    (p : String) (hp : p ∈ reservedWidgetNames) :
    getWidgetValue (parserB g) (encBNode m) p = getWidgetValue (parserA g) (encANode m) p :=
  widget_AB_eq g m p (edgeLookup_of_reserved g m p hm hwf.2.2.2 hp)

theorem extractModel_AB (g : LGraph) (hwf : LGraph.WF g) (n : LNode) :
    extractModel (parserA g) (encANode n) = extractModel (parserB g) (encBNode n) := by
  unfold extractModel
  rw [nodeIdString_A, nodeIdString_B]
  show (match findSourceNode (parserA g) modelLoaderTypes "model" 20 (idStr n) with
    | none => none
    | some modelNode =>
      (((getWidgetValue (parserA g) modelNode "ckpt_name").orElse
          (fun _ => getWidgetValue (parserA g) modelNode "unet_name")).orElse
          (fun _ => getWidgetValue (parserA g) modelNode "model_name")).bind Json.asStr) =
    (match findSourceNode (parserB g) modelLoaderTypes "model" 20 (idStr n) with
    | none => none
    | some modelNode =>
      (((getWidgetValue (parserB g) modelNode "ckpt_name").orElse
          (fun _ => getWidgetValue (parserB g) modelNode "unet_name")).orElse
          (fun _ => getWidgetValue (parserB g) modelNode "model_name")).bind Json.asStr)
  rw [trav_A g hwf modelLoaderTypes "model" 20 (idStr n),
    trav_B g hwf modelLoaderTypes "model" 20 (idStr n)]
  cases hl : ltrav g modelLoaderTypes "model" 20 (idStr n) with
  | none => rfl
  | some m =>
    have hm := ltrav_mem g modelLoaderTypes "model" 20 (idStr n) m hl
    simp only [Option.map_some']
    rw [widget_AB_reserved g hwf m hm "ckpt_name" (by decide),
      widget_AB_reserved g hwf m hm "unet_name" (by decide),
      widget_AB_reserved g hwf m hm "model_name" (by decide)]

theorem extractPrompts_AB (g : LGraph) (hwf : LGraph.WF g) (n : LNode) :
    extractPrompts (parserA g) (encANode n) = extractPrompts (parserB g) (encBNode n) := by
  unfold extractPrompts
  rw [nodeIdString_A, nodeIdString_B]
  simp only [Option.getD_some]
  rw [trav_A g hwf promptNodeTypes "positive" 20 (idStr n),
    trav_B g hwf promptNodeTypes "positive" 20 (idStr n),
    trav_A g hwf promptNodeTypes "negative" 20 (idStr n),
    trav_B g hwf promptNodeTypes "negative" 20 (idStr n)]
  cases hlp : ltrav g promptNodeTypes "positive" 20 (idStr n) with
  | none =>
    cases hln : ltrav g promptNodeTypes "negative" 20 (idStr n) with
    | none => rfl
    | some mn =>
      have hmn := ltrav_mem g promptNodeTypes "negative" 20 (idStr n) mn hln
      simp only [Option.map_some', Option.map_none']
      rw [widget_AB_reserved g hwf mn hmn "text" (by decide)]
  | some mp =>
    have hmp := ltrav_mem g promptNodeTypes "positive" 20 (idStr n) mp hlp
    cases hln : ltrav g promptNodeTypes "negative" 20 (idStr n) with
    | none =>
      simp only [Option.map_some', Option.map_none']
      rw [widget_AB_reserved g hwf mp hmp "text" (by decide)]
    | some mn =>
      have hmn := ltrav_mem g promptNodeTypes "negative" 20 (idStr n) mn hln
      simp only [Option.map_some']
      rw [widget_AB_reserved g hwf mp hmp "text" (by decide),
        widget_AB_reserved g hwf mn hmn "text" (by decide)]

theorem extractDimensions_AB (g : LGraph) (hwf : LGraph.WF g) (n : LNode) :
    extractDimensions (parserA g) (encANode n) = extractDimensions (parserB g) (encBNode n) := by
  unfold extractDimensions
  rw [nodeIdString_A, nodeIdString_B]
  simp only [Option.getD_some]
  rw [trav_A g hwf ["EmptyLatentImage"] "latent_image" 20 (idStr n),
    trav_B g hwf ["EmptyLatentImage"] "latent_image" 20 (idStr n)]
  cases hl : ltrav g ["EmptyLatentImage"] "latent_image" 20 (idStr n) with
  | none => rfl
  | some m =>
    have hm := ltrav_mem g ["EmptyLatentImage"] "latent_image" 20 (idStr n) m hl
    simp only [Option.map_some']
    rw [widget_AB_reserved g hwf m hm "width" (by decide),
      widget_AB_reserved g hwf m hm "height" (by decide)]

theorem extractParameters_AB (g : LGraph) (hwf : LGraph.WF g) (n : LNode) (hn : n ∈ g.nodes) :
    extractParameters (parserA g) (encANode n) = extractParameters (parserB g) (encBNode n) := by
  unfold extractParameters
  rw [widget_AB_reserved g hwf n hn "cfg" (by decide),
    widget_AB_reserved g hwf n hn "steps" (by decide)]

theorem extractSamplerDetails_AB (g : LGraph) (hwf : LGraph.WF g) (n : LNode)
    (hn : n ∈ g.nodes) :
    extractSamplerDetails (parserA g) (encANode n) =
      extractSamplerDetails (parserB g) (encBNode n) := by
  unfold extractSamplerDetails
  rw [widget_AB_reserved g hwf n hn "sampler_name" (by decide),
    widget_AB_reserved g hwf n hn "scheduler" (by decide)]

theorem processSampler_AB (g : LGraph) (hwf : LGraph.WF g) (n : LNode) (hn : n ∈ g.nodes) :
    processSampler (parserA g) (encANode n) = processSampler (parserB g) (encBNode n) := by
  unfold processSampler
  rw [extractSamplerDetails_AB g hwf n hn, extractModel_AB g hwf n,
    extractPrompts_AB g hwf n, extractDimensions_AB g hwf n,
    extractParameters_AB g hwf n hn]

theorem filter_map_pair (l : List LNode) (F : LNode → Json) (pred : String × Json → Bool)
    (predL : LNode → Bool) (h : ∀ n, pred (idStr n, F n) = predL n) :
    (l.map (fun n => (idStr n, F n))).filter pred =
      (l.filter predL).map (fun n => (idStr n, F n)) := by
  induction l with
  | nil => rfl
  | cons n l ih =>
    simp only [List.map_cons, List.filter_cons, h n]
    cases predL n
    · simpa using ih
    · simpa using ih

theorem insertSorted_map {α β : Type} (key : β → Int) (keyL : α → Int) (F : α → β)
    (h : ∀ x, key (F x) = keyL x) (y : α) :
    ∀ l : List α, insertSorted key (F y) (l.map F) = (insertSorted keyL y l).map F := by
  intro l
  induction l with
  | nil => rfl
  | cons x l ih =>
    simp only [List.map_cons, insertSorted, h]
    by_cases hc : keyL y < keyL x
    · rw [if_pos hc, if_pos hc]
      rfl
    · rw [if_neg hc, if_neg hc]
      rw [List.map_cons, ih]

theorem sortByKey_map {α β : Type} (key : β → Int) (keyL : α → Int) (F : α → β)
    (h : ∀ x, key (F x) = keyL x) :
    ∀ l : List α, sortByKey key (l.map F) = (sortByKey keyL l).map F := by
  intro l
  induction l with
  | nil => rfl
  | cons x l ih =>
    simp only [List.map_cons, sortByKey]
    rw [ih, insertSorted_map key keyL F h]

theorem mem_of_mem_insertSorted {α : Type} (key : α → Int) (y : α) :
    ∀ (l : List α) (x : α), x ∈ insertSorted key y l → x = y ∨ x ∈ l := by
  intro l
  induction l with
  | nil =>
    intro x hx
    simp only [insertSorted, List.mem_singleton] at hx
    exact Or.inl hx
  | cons z l ih =>
    intro x hx
    simp only [insertSorted] at hx
    by_cases hc : key y < key z
    · rw [if_pos hc] at hx
      rcases List.mem_cons.mp hx with rfl | hx2
      · exact Or.inl rfl
      · exact Or.inr hx2
    · rw [if_neg hc] at hx
      rcases List.mem_cons.mp hx with rfl | hx2
      · exact Or.inr (List.mem_cons_self x l)
      · rcases ih x hx2 with h1 | h2
        · exact Or.inl h1
        · exact Or.inr (List.mem_cons_of_mem z h2)

theorem mem_of_mem_sortByKey {α : Type} (key : α → Int) :
    ∀ (l : List α) (x : α), x ∈ sortByKey key l → x ∈ l := by
  intro l
  induction l with
  | nil => intro x hx; simp [sortByKey] at hx
  | cons y l ih =>
    intro x hx
    simp only [sortByKey] at hx
    rcases mem_of_mem_insertSorted key y (sortByKey key l) x hx with rfl | hx2
    · exact List.mem_cons_self x l
    · exact List.mem_cons_of_mem y (ih x hx2)

theorem findSamplerNodes_A (g : LGraph) :
    findSamplerNodes (parserA g) = (sortedSamplers g).map encANode := by
  show (sortByKey samplerSortKey ((ANodes g).filter (fun kv =>
      match getNodeType (parserA g) kv.2 with
      | some t => samplerTypes.contains t
      | none => false))).map (fun kv => kv.2) = _
  rw [ANodes, filter_map_pair g.nodes encANode _ (fun n => samplerTypes.contains n.typ)
    (fun n => rfl)]
  rw [sortByKey_map samplerSortKey (fun n => (parseI64 (idStr n)).getD 0)
    (fun n => (idStr n, encANode n)) (fun n => rfl)]
  rw [sortedSamplers, List.map_map]
  rfl

theorem findSamplerNodes_B (g : LGraph) :
    findSamplerNodes (parserB g) = (sortedSamplers g).map encBNode := by
  show (sortByKey samplerSortKey ((BNodes g).filter (fun kv =>
      match getNodeType (parserB g) kv.2 with
      | some t => samplerTypes.contains t
      | none => false))).map (fun kv => kv.2) = _
  rw [BNodes, filter_map_pair g.nodes encBNode _ (fun n => samplerTypes.contains n.typ)
    (fun n => rfl)]
  rw [sortByKey_map samplerSortKey (fun n => (parseI64 (idStr n)).getD 0)
    (fun n => (idStr n, encBNode n)) (fun n => rfl)]
  rw [sortedSamplers, List.map_map]
  rfl

/-- C5 (amended): for every well-formed logical graph — no input edge named
like a scalar widget field or like one of its node's own scalars — the
format-A and format-B encodings parse to identical `ParsedWorkflow` lists,
field for field.  (`c5_counterexample` shows the claim fails without that
restriction.) -/
theorem c5_format_equivalence (g : LGraph) (hwf : LGraph.WF g) :
    parseWorkflow (encodeA g) = parseWorkflow (encodeB g) := by
  simp only [parseWorkflow, parserA_ok g hwf, parserB_ok g hwf]
  unfold parseAll
  rw [findSamplerNodes_A, findSamplerNodes_B, List.map_map, List.map_map]
  apply List.map_congr_left
  intro n hn
  have hmem : n ∈ g.nodes :=
    (List.mem_filter.mp (mem_of_mem_sortByKey _ _ n hn)).1
  exact processSampler_AB g hwf n hmem

/-- C5 counterexample: `gBad`'s loader carries an input edge named
`ckpt_name` next to a scalar `unet_name`; format A resolves
`model_name = "foo"` via `properties`, format B's inline reference shadows
the widget chain and yields `None` — the two encodings of the same logical
graph disagree. -/
theorem c5_counterexample :
    parseWorkflow (encodeA gBad) ≠ parseWorkflow (encodeB gBad) ∧
    (parseWorkflow (encodeA gBad)).map (fun w => w.model_name) = [some "foo"] ∧
    (parseWorkflow (encodeB gBad)).map (fun w => w.model_name) = [none] := by
  refine ⟨by decide, by decide, by decide⟩

/-- Witness for C5 at `gEx`, a well-formed graph exercising every
extraction path; both encodings give the same fully-populated record. -/
theorem c5_format_equivalence_witness :
    LGraph.WF gEx ∧ parseWorkflow (encodeA gEx) = parseWorkflow (encodeB gEx) ∧
    parseWorkflow (encodeB gEx) =
      [{ model_name := some "sd15.safetensors", sampler_name := some "euler",
         scheduler := some "normal", positive_prompt := "a cat",
         negative_prompt := "blurry", width := some 512, height := some 768,
         cfg := some 8, steps := some 30 }] :=
  ⟨by decide, c5_format_equivalence gEx (by decide), by decide⟩
